import Mathlib

/-!
Verification of the SQL statement-boundary scanner and the Postgres table
data provider of the vs-code-db-explorer repository.

The definitions below are shallow embeddings of the TypeScript source:
  * the lexical scanner and statement resolver from `sqlText.ts`
    (`scanSqlSegments`, `getSqlStatements`, `getSqlToRun`, ...);
  * the table data provider from `postgresTableDataProvider.ts`
    (`buildOpenTableSql`, `buildUpdateStatement`, `buildInsertStatement`,
    `buildDeleteStatement`, `loadColumnTypes`, `loadColumnEnumValues`,
    `normalizePageSize`, `loadPage`, `saveChanges`).

Text is modelled as `String` / `List Char`; JavaScript runtime values bound
as SQL parameters are modelled by `JsValue`; the JavaScript number passed as
a page size is modelled by `JsNum` (NaN, the infinities, or a rational).
Database effects are modelled by threading an explicit script of query
responses (`ExecState`); each `client.query` consumes the next scripted
response and is recorded in a log, so that transaction and release behaviour
is visible as a trace.

The scanner is written with an explicit fuel argument equal to the text
length so that it is structurally recursive and kernel-computable; one unit
of fuel is spent per loop iteration and every iteration consumes at least
one character, so fuel never runs out on the initial call.  In addition to
the segment list of the source, the scan returns a ghost trace `visits` of
`(offset, state)` pairs, one per loop iteration, used only to state theorems
about the lexical state in which a character was scanned.
-/

/-- Scanner states, mirroring the `ScannerState` tagged union of the source. -/
inductive ScannerState where
  | normal
  | singleQuote
  | doubleQuote
  | lineComment
  | blockComment (depth : Nat)
  | dollarQuote (delimiter : List Char)
deriving DecidableEq, Repr

/-- A scanned segment: its raw end offset (position of the terminating `;`,
or the text length for the final segment) and the offset of its first
non-whitespace, non-comment character, if any. -/
structure SqlSegment where
  rawEnd : Nat
  firstContentOffset : Option Nat
deriving DecidableEq, Repr

/-- Output of the scan: the segment list of the source function plus the
ghost per-iteration trace of `(offset, state-on-entry)` pairs. -/
structure ScanOutput where
  segments : List SqlSegment
  visits : List (Nat × ScannerState)
deriving DecidableEq, Repr

/-- The `isWhitespace` helper of the source: space, tab, newline, carriage
return or form feed. -/
def isWhitespaceChar (c : Char) : Bool :=
  c = ' ' || c = '\t' || c = '\n' || c = '\r' || c = Char.ofNat 12

/-- The `isDollarTagChar` helper of the source: ASCII digits, letters or
underscore. -/
def isDollarTagChar (c : Char) : Bool :=
  (48 ≤ c.toNat && c.toNat ≤ 57) ||
  (65 ≤ c.toNat && c.toNat ≤ 90) ||
  (97 ≤ c.toNat && c.toNat ≤ 122) ||
  c = '_'

/-- Characters of a dollar-quote tag up to (excluding) the closing `$`;
`none` when a non-tag character or the end of text is reached first. -/
def dollarTagBody : List Char → Option (List Char)
  | [] => none
  | c :: cs =>
    if c = '$' then some []
    else if isDollarTagChar c then (dollarTagBody cs).map (fun tag => c :: tag)
    else none

/-- The `readDollarQuoteDelimiter` helper of the source, reading a
well-formed `$tag$` opener from the head of the remaining text. -/
def readDollarQuoteDelimiter : List Char → Option (List Char)
  | [] => none
  | c :: rest =>
    if c = '$' then (dollarTagBody rest).map (fun tag => '$' :: (tag ++ ['$']))
    else none

/-- Whether the first list is an initial run of the second, modelling
`text.startsWith(delimiter, i)` on the remaining text. -/
def headMatches : List Char → List Char → Bool
  | [], _ => true
  | _ :: _, [] => false
  | p :: ps, c :: cs => p = c && headMatches ps cs

/-- Record the first content offset if none has been recorded yet,
modelling `if (firstContentOffset === undefined) firstContentOffset = i`. -/
def noteContent (fco : Option Nat) (i : Nat) : Option Nat :=
  match fco with
  | none => some i
  | some c => some c

/-- The scanner loop of `scanSqlSegments`.  `fuel` decreases by one per loop
iteration; `s` is the unread suffix of the text; `i` is the absolute offset
of its head; `st` is the current lexical state; `fco` is the pending first
content offset of the current segment. -/
def scanAux : Nat → List Char → Nat → ScannerState → Option Nat → ScanOutput
  | 0, _, i, _, fco => ⟨[⟨i, fco⟩], []⟩
  | _ + 1, [], i, _, fco => ⟨[⟨i, fco⟩], []⟩
  | fuel + 1, c :: rest, i, st, fco =>
    let out : ScanOutput :=
      match st with
      | ScannerState.singleQuote =>
        if c = '\'' ∧ rest.head? = some '\'' then
          scanAux fuel rest.tail (i + 2) ScannerState.singleQuote fco
        else if c = '\'' then scanAux fuel rest (i + 1) ScannerState.normal fco
        else scanAux fuel rest (i + 1) ScannerState.singleQuote fco
      | ScannerState.doubleQuote =>
        if c = '"' ∧ rest.head? = some '"' then
          scanAux fuel rest.tail (i + 2) ScannerState.doubleQuote fco
        else if c = '"' then scanAux fuel rest (i + 1) ScannerState.normal fco
        else scanAux fuel rest (i + 1) ScannerState.doubleQuote fco
      | ScannerState.lineComment =>
        if c = '\n' then scanAux fuel rest (i + 1) ScannerState.normal fco
        else scanAux fuel rest (i + 1) ScannerState.lineComment fco
      | ScannerState.blockComment depth =>
        if c = '/' ∧ rest.head? = some '*' then
          scanAux fuel rest.tail (i + 2) (ScannerState.blockComment (depth + 1)) fco
        else if c = '*' ∧ rest.head? = some '/' then
          if depth ≤ 1 then scanAux fuel rest.tail (i + 2) ScannerState.normal fco
          else scanAux fuel rest.tail (i + 2) (ScannerState.blockComment (depth - 1)) fco
        else scanAux fuel rest (i + 1) (ScannerState.blockComment depth) fco
      | ScannerState.dollarQuote delim =>
        if headMatches delim (c :: rest) then
          scanAux fuel (rest.drop (delim.length - 1)) (i + 1 + (delim.length - 1))
            ScannerState.normal fco
        else scanAux fuel rest (i + 1) (ScannerState.dollarQuote delim) fco
      | ScannerState.normal =>
        if c = '-' ∧ rest.head? = some '-' then
          scanAux fuel rest.tail (i + 2) ScannerState.lineComment fco
        else if c = '/' ∧ rest.head? = some '*' then
          scanAux fuel rest.tail (i + 2) (ScannerState.blockComment 1) fco
        else if c = ';' then
          let tail := scanAux fuel rest (i + 1) ScannerState.normal none
          ⟨⟨i, fco⟩ :: tail.segments, tail.visits⟩
        else if c = '\'' then
          scanAux fuel rest (i + 1) ScannerState.singleQuote (noteContent fco i)
        else if c = '"' then
          scanAux fuel rest (i + 1) ScannerState.doubleQuote (noteContent fco i)
        else if c = '$' then
          match readDollarQuoteDelimiter (c :: rest) with
          | some delim =>
            scanAux fuel (rest.drop (delim.length - 1)) (i + 1 + (delim.length - 1))
              (ScannerState.dollarQuote delim) (noteContent fco i)
          | none => scanAux fuel rest (i + 1) ScannerState.normal (noteContent fco i)
        else if isWhitespaceChar c then
          scanAux fuel rest (i + 1) ScannerState.normal fco
        else
          scanAux fuel rest (i + 1) ScannerState.normal (noteContent fco i)
    ⟨out.segments, (i, st) :: out.visits⟩

/-- The `scanSqlSegments` function of the source. -/
def scanSqlSegments (text : String) : List SqlSegment :=
  (scanAux text.data.length text.data 0 ScannerState.normal none).segments

/-- Ghost trace of the scan of `text`: the `(offset, state)` pair of every
loop iteration of `scanSqlSegments`. -/
def scanVisits (text : String) : List (Nat × ScannerState) :=
  (scanAux text.data.length text.data 0 ScannerState.normal none).visits

/-- The `collectSeparatorOffsets` helper of the source: raw segment ends
strictly inside the text, i.e. the offsets of the boundary semicolons. -/
def collectSeparatorOffsets (text : String) : List Nat :=
  ((scanSqlSegments text).map SqlSegment.rawEnd).filter (fun o => o < text.data.length)

/-- Loop of `findSegmentStart`, walking the separator list from its end
(the caller passes the reversed list). -/
def findSegmentStartGo (cursorOffset : Nat) : List Nat → Nat
  | [] => 0
  | s :: rest =>
    if (s : Int) ≤ (cursorOffset : Int) - 1 then s + 1 else findSegmentStartGo cursorOffset rest

/-- The `findSegmentStart` helper of the source: one past the last separator
strictly before the cursor, or `0`. -/
def findSegmentStart (cursorOffset : Nat) (separators : List Nat) : Nat :=
  findSegmentStartGo cursorOffset separators.reverse

/-- The `findSegmentEnd` helper of the source: the first separator at or
after the cursor, or the text length. -/
def findSegmentEnd (cursorOffset : Nat) : List Nat → Nat → Nat
  | [], textLength => textLength
  | s :: rest, textLength =>
    if s ≥ cursorOffset then s else findSegmentEnd cursorOffset rest textLength

/-- List-level left trim over the source's whitespace set. -/
def trimLeftChars (l : List Char) : List Char := l.dropWhile isWhitespaceChar

/-- List-level right trim over the source's whitespace set. -/
def trimRightChars (l : List Char) : List Char :=
  (l.reverse.dropWhile isWhitespaceChar).reverse

/-- JavaScript `String.prototype.trim`, modelled over the source's
whitespace set. -/
def jsTrim (s : String) : String := String.mk (trimRightChars (trimLeftChars s.data))

/-- JavaScript `String.prototype.trimEnd`, modelled over the source's
whitespace set. -/
def jsTrimEnd (s : String) : String := String.mk (trimRightChars s.data)

/-- JavaScript `text.slice(a, b)` for `0 ≤ a, b`. -/
def sliceStr (text : String) (a b : Nat) : String :=
  String.mk ((text.data.drop a).take (b - a))

/-- The `trimRightWhitespace` helper of the source: step an end index left
past trailing whitespace. -/
def trimRightWhitespace (text : String) : Nat → Nat
  | 0 => 0
  | e + 1 =>
    match text.data.get? e with
    | some c => if isWhitespaceChar c then trimRightWhitespace text e else e + 1
    | none => e + 1

/-- A statement produced by `getSqlStatements`: its text and the offsets of
its source range. -/
structure SqlStatement where
  text : String
  rangeStart : Nat
  rangeEnd : Nat
deriving DecidableEq, Repr

/-- The per-segment body of the `getSqlStatements` loop of the source: the
statement produced for one segment, sliced from the first content offset to
the right-trimmed raw end, or nothing when the segment has no content or
trims away. -/
def segmentStatement (text : String) (segment : SqlSegment) : Option SqlStatement :=
  match segment.firstContentOffset with
  | none => none
  | some contentOffset =>
    let e := trimRightWhitespace text segment.rawEnd
    if e ≤ contentOffset then none
    else
      let statement := jsTrimEnd (sliceStr text contentOffset e)
      if statement.data.length = 0 then none
      else some ⟨statement, contentOffset, e⟩

/-- The `getSqlStatements` function of the source: one statement per segment
with content, dropping segments that yield nothing. -/
def getSqlStatements (text : String) : List SqlStatement :=
  (scanSqlSegments text).filterMap (segmentStatement text)

/-- The cursor branch of `getSqlToRun` (the selection is empty): resolve the
statement at the cursor offset in the document text. -/
def getSqlToRun (text : String) (cursorOffset : Nat) : Option String :=
  if (jsTrim text).data.length = 0 then none
  else
    let separators := collectSeparatorOffsets text
    let startIndex := findSegmentStart cursorOffset separators
    let endIndex := findSegmentEnd cursorOffset separators text.data.length
    let sql := jsTrim (sliceStr text startIndex endIndex)
    if 0 < sql.data.length then some sql else none

/-- Modelled from the spec: skip the rest of a line comment, dropping the
characters up to and including the terminating newline (or all of them when
the comment runs to the end). -/
def skipLineComment : List Char → List Char
  | [] => []
  | c :: rest => if c = '\n' then rest else skipLineComment rest

/-- Modelled from the spec: skip the rest of a nested block comment open at
the given depth, dropping the characters up to and including the matching
closing delimiter (or all of them when the comment runs to the end); `fuel`
bounds the recursion and is immaterial at or above the list length. -/
def skipBlockComment : Nat → Nat → List Char → List Char
  | _, _, [] => []
  | 0, _, l => l
  | fuel + 1, depth, c :: rest =>
    if c = '/' ∧ rest.head? = some '*' then skipBlockComment fuel (depth + 1) rest.tail
    else if c = '*' ∧ rest.head? = some '/' then
      if depth ≤ 1 then rest.tail else skipBlockComment fuel (depth - 1) rest.tail
    else skipBlockComment fuel depth rest

/-- Modelled from the spec: whether a run of characters is pure whitespace
and comments — the spec's "segment with no content"; `fuel` bounds the
recursion and is immaterial at or above the list length. -/
def wsCommentOnly : Nat → List Char → Bool
  | _, [] => true
  | 0, _ :: _ => false
  | fuel + 1, c :: rest =>
    if isWhitespaceChar c then wsCommentOnly fuel rest
    else if c = '-' ∧ rest.head? = some '-' then wsCommentOnly fuel (skipLineComment rest.tail)
    else if c = '/' ∧ rest.head? = some '*' then
      wsCommentOnly fuel (skipBlockComment fuel 1 rest.tail)
    else false

/-- Modelled from the spec: every scanned segment (its characters running
from its start — one past the previous boundary — to its raw end) carries no
first content offset exactly when those characters are pure whitespace and
comments.  `s` is the text's character suffix from offset `start`. -/
def segmentsDropSpec (F : Nat) : List Char → Nat → List SqlSegment → Prop
  | _, _, [] => True
  | s, start, seg :: rest =>
    (seg.firstContentOffset = none ↔
      wsCommentOnly F (s.take (seg.rawEnd - start)) = true) ∧
    segmentsDropSpec F (s.drop (seg.rawEnd + 1 - start)) (seg.rawEnd + 1) rest

/-- The lexical states in which the pending text of the current segment is
still whitespace/comment material (no quote is open). -/
def inertState : ScannerState → Prop
  | ScannerState.normal => True
  | ScannerState.lineComment => True
  | ScannerState.blockComment _ => True
  | _ => False

/-- Modelled from the spec: the rest of the current segment is pure
whitespace and comments, read relative to the scanner's lexical state. -/
def inertRest (F : Nat) : ScannerState → List Char → Bool
  | ScannerState.normal, l => wsCommentOnly F l
  | ScannerState.lineComment, l => wsCommentOnly F (skipLineComment l)
  | ScannerState.blockComment depth, l => wsCommentOnly F (skipBlockComment F depth l)
  | _, _ => false

/-- JavaScript runtime values appearing in query rows and bound parameters. -/
inductive JsValue where
  | jsNull
  | jsUndefined
  | jsStr (s : String)
  | jsNum (n : Int)
  | jsBool (b : Bool)
deriving DecidableEq, Repr

/-- An engine error, kept opaque so that propagation "unmodified" is
meaningful. -/
structure QueryError where
  message : String
deriving DecidableEq, Repr

/-- The `QueryResultLike` shape of the source: field names, rows as keyed
records, and an optional affected-row count. -/
structure QueryResultLike where
  fields : List String := []
  rows : List (List (String × JsValue)) := []
  rowCount : Option Int := none
deriving DecidableEq, Repr

/-- JavaScript property access `row[key]`: the value of the first matching
key, `undefined` when absent. -/
def rowGet (row : List (String × JsValue)) (key : String) : JsValue :=
  match row.find? (fun p => p.1 = key) with
  | some p => p.2
  | none => JsValue.jsUndefined

/-- The `TableReference` contract. -/
structure TableReference where
  schemaName : String
  tableName : String
deriving DecidableEq, Repr

/-- The `quoteIdentifier` of `PostgresDialect`: double every embedded `"`
and wrap in double quotes. -/
def escapeDoubleQuotes : List Char → List Char
  | [] => []
  | c :: rest =>
    if c = '"' then '"' :: '"' :: escapeDoubleQuotes rest
    else c :: escapeDoubleQuotes rest

/-- The `quoteIdentifier` of `PostgresDialect`. -/
def quoteIdentifier (identifier : String) : String :=
  "\"" ++ String.mk (escapeDoubleQuotes identifier.data) ++ "\""

/-- The `ROW_TOKEN_ALIAS` constant of the source. -/
def rowTokenAlias : String := "__postgres_explorer_row_token__"

/-- Qualified `"schema"."table"` name. -/
def qualifiedName (table : TableReference) : String :=
  quoteIdentifier table.schemaName ++ "." ++ quoteIdentifier table.tableName

/-- The `buildOpenTableSql` of the source (`postgresTableDataProvider.ts`):
select the `ctid` row token plus all columns, ordered by physical position,
with the given limit and offset. -/
def buildOpenTableSql (schemaName tableName : String) (limit offset : Int) : String :=
  "SELECT ctid::text AS " ++ quoteIdentifier rowTokenAlias ++ ", * FROM " ++
    quoteIdentifier schemaName ++ "." ++ quoteIdentifier tableName ++
    " ORDER BY ctid LIMIT " ++ toString limit ++ " OFFSET " ++ toString offset ++ ";"

/-- The column-type metadata query text of `buildColumnTypesSql`. -/
def columnTypesSql : String :=
  "\n      SELECT a.attname AS column_name, pg_catalog.format_type(a.atttypid, a.atttypmod) AS column_type\n      FROM pg_catalog.pg_attribute a\n      JOIN pg_catalog.pg_class c ON c.oid = a.attrelid\n      JOIN pg_catalog.pg_namespace n ON n.oid = c.relnamespace\n      WHERE n.nspname = $1\n        AND c.relname = $2\n        AND a.attnum > 0\n        AND NOT a.attisdropped\n      ORDER BY a.attnum;\n    "

/-- The enum-label metadata query text of `buildColumnEnumValuesSql`
(abbreviated to its distinguishing head; the claims only compare query
identities, never parse this text). -/
def columnEnumValuesSql : String :=
  "\n      SELECT a.attname AS column_name, e.enumlabel AS enum_value\n      FROM pg_catalog.pg_attribute a ... ORDER BY a.attnum, e.enumsortorder;\n    "

/-- Rows of a metadata result as `(column_name, column_type)` pairs,
keeping only rows where both properties are strings, in row order. -/
def typePairsOf (res : QueryResultLike) : List (String × String) :=
  res.rows.filterMap (fun row =>
    match rowGet row ("column_name"), rowGet row ("column_type") with
    | JsValue.jsStr n, JsValue.jsStr t => some (n, t)
    | _, _ => none)

/-- The `loadColumnTypes` of the source, with the metadata query's outcome
supplied as an explicit response: build a name-to-type map (later rows
overwrite, as `Map.set` does) and read it per column, defaulting to `""`;
any query failure degrades to `""` for every column. -/
def loadColumnTypes (columns : List String)
    (resp : Except QueryError QueryResultLike) : List String :=
  if columns.length = 0 then []
  else
    match resp with
    | Except.error _ => columns.map (fun _ => "")
    | Except.ok res =>
      columns.map (fun c =>
        match (typePairsOf res).reverse.find? (fun p => p.1 = c) with
        | some p => p.2
        | none => "")

/-- Rows of a metadata result as `(column_name, enum_value)` pairs. -/
def enumPairsOf (res : QueryResultLike) : List (String × String) :=
  res.rows.filterMap (fun row =>
    match rowGet row ("column_name"), rowGet row ("enum_value") with
    | JsValue.jsStr n, JsValue.jsStr v => some (n, v)
    | _, _ => none)

/-- The `loadColumnEnumValues` of the source, with the metadata query's
outcome supplied as an explicit response: group enum labels by column name
in row order and read them per column, defaulting to `[]`; any query
failure degrades to `[]` for every column. -/
def loadColumnEnumValues (columns : List String)
    (resp : Except QueryError QueryResultLike) : List (List String) :=
  if columns.length = 0 then []
  else
    match resp with
    | Except.error _ => columns.map (fun _ => [])
    | Except.ok res =>
      columns.map (fun c => ((enumPairsOf res).filter (fun p => p.1 = c)).map (fun p => p.2))

/-- A JavaScript number as supplied for a page size: NaN, an infinity, or a
finite rational. -/
inductive JsNum where
  | nan
  | posInf
  | negInf
  | finite (q : ℚ)
deriving DecidableEq, Repr

/-- The `normalizePageSize` of the source: non-finite or non-positive page
sizes fall back to the given default, finite positive ones are floored. -/
def normalizePageSize (limit : JsNum) (fallback : Int) : Int :=
  match limit with
  | JsNum.finite q => if q ≤ 0 then fallback else q.floor
  | _ => fallback

/-- The `DEFAULT_PAGE_SIZE` constant of the source. -/
def DEFAULT_PAGE_SIZE : Int := 100

/-- A `TablePageRequest`. -/
structure TablePageRequest where
  table : TableReference
  pageSize : JsNum
  pageIndex : Nat
deriving DecidableEq, Repr

/-- A `TableColumnDescriptor` of a loaded page. -/
structure TableColumnDescriptor where
  name : String
  dataType : Option String
  enumValues : Option (List String)
deriving DecidableEq, Repr

/-- A `TableRowData` of a loaded page. -/
structure TableRowData where
  rowLocator : Option String
  values : List JsValue
deriving DecidableEq, Repr

/-- A `TablePageResult`. -/
structure TablePageResult where
  table : TableReference
  columns : List TableColumnDescriptor
  rows : List TableRowData
  pageSize : Int
  pageIndex : Nat
  hasNextPage : Bool
deriving DecidableEq, Repr

/-- The `loadPage` of the source, with the three query outcomes (main table
query, column-type metadata, enum-label metadata) supplied as explicit
responses.  Returns the result of the load together with the list of SQL
texts actually issued (metadata queries are only issued for a non-empty
column list, as in the source's early returns). -/
def loadPage (request : TablePageRequest)
    (mainResp typesResp enumsResp : Except QueryError QueryResultLike) :
    Except QueryError TablePageResult × List String :=
  let pageSize := normalizePageSize request.pageSize DEFAULT_PAGE_SIZE
  let offset : Int := (request.pageIndex : Int) * pageSize
  let limit : Int := pageSize + 1
  let sql := buildOpenTableSql request.table.schemaName request.table.tableName limit offset
  match mainResp with
  | Except.error e => (Except.error e, [sql])
  | Except.ok res =>
    let allRows := res.rows
    let columns := res.fields.filter (fun fieldName => fieldName ≠ rowTokenAlias)
    let columnTypes := loadColumnTypes columns typesResp
    let columnEnumValues := loadColumnEnumValues columns enumsResp
    let hasNextPage : Bool := pageSize < (allRows.length : Int)
    let visibleRows := if hasNextPage then allRows.take pageSize.toNat else allRows
    let page : TablePageResult :=
      { table := request.table
        columns := columns.enum.map (fun p =>
          { name := p.2, dataType := columnTypes.get? p.1, enumValues := columnEnumValues.get? p.1 })
        rows := visibleRows.map (fun row =>
          { rowLocator :=
              match rowGet row rowTokenAlias with
              | JsValue.jsStr s => some s
              | _ => none
            values := columns.map (fun columnName => rowGet row columnName) })
        pageSize := pageSize
        pageIndex := request.pageIndex
        hasNextPage := hasNextPage }
    (Except.ok page,
      if columns.length = 0 then [sql] else [sql, columnTypesSql, columnEnumValuesSql])

/-- A `TableCellChange` of the contracts: a positional column reference, a
value, and a null flag. -/
structure TableCellChange where
  columnIndex : Nat
  value : JsValue
  isNull : Bool
deriving DecidableEq, Repr

/-- A `TableDataChange` of the contracts. -/
inductive TableDataChange where
  | update (rowLocator : String) (updates : List TableCellChange)
  | insert (values : List TableCellChange)
  | delete (rowLocator : String)
deriving DecidableEq, Repr

/-- A built statement: SQL text plus bound parameter values. -/
structure SqlCommand where
  sql : String
  values : List JsValue
deriving DecidableEq, Repr

/-- JavaScript truthy read `columns[index]` of the statement builders: the
column name at the index, with out-of-range and the falsy empty string both
yielding nothing. -/
def truthyGet (columns : List String) (index : Nat) : Option String :=
  match columns.get? index with
  | some name => if name = "" then none else some name
  | none => none

/-- The bound value of one cell change: SQL NULL when `isNull` is set,
otherwise the value itself. -/
def cellBind (u : TableCellChange) : JsValue :=
  if u.isNull then JsValue.jsNull else u.value

/-- The SET-clause loop of `buildUpdateStatement`: accumulate one clause and
one bound value per resolvable cell update, in source order, numbering
placeholders by the running value count. -/
def updateSetFold (columns : List String) (updates : List TableCellChange) :
    List String × List JsValue :=
  updates.foldl (fun acc u =>
    match truthyGet columns u.columnIndex with
    | none => acc
    | some name =>
      (acc.1 ++ [quoteIdentifier name ++ " = $" ++ toString (acc.2.length + 1)],
       acc.2 ++ [cellBind u])) ([], [])

/-- The `buildUpdateStatement` of the source. -/
def buildUpdateStatement (table : TableReference) (columns : List String)
    (rowLocator : String) (updates : List TableCellChange) : Option SqlCommand :=
  if updates.length = 0 then none
  else
    let acc := updateSetFold columns updates
    if acc.1.length = 0 then none
    else
      let values := acc.2 ++ [JsValue.jsStr rowLocator]
      some
        { sql := "UPDATE " ++ qualifiedName table ++ " SET " ++
            String.intercalate (", ") acc.1 ++ " WHERE ctid = $" ++
            toString values.length ++ "::tid;"
          values := values }

/-- Accumulator of the `buildInsertStatement` loop. -/
structure InsertAcc where
  names : List String
  placeholders : List String
  values : List JsValue
  seen : List Nat
deriving DecidableEq, Repr

/-- The loop of `buildInsertStatement`: skip already-seen column indices,
skip unresolvable ones, and otherwise accumulate the quoted name, a
placeholder, the bound value and the index. -/
def insertFold (columns : List String) (cells : List TableCellChange) : InsertAcc :=
  cells.foldl (fun acc u =>
    if u.columnIndex ∈ acc.seen then acc
    else
      match truthyGet columns u.columnIndex with
      | none => acc
      | some name =>
        { names := acc.names ++ [quoteIdentifier name]
          placeholders := acc.placeholders ++ ["$" ++ toString (acc.values.length + 1)]
          values := acc.values ++ [cellBind u]
          seen := acc.seen ++ [u.columnIndex] }) ⟨[], [], [], []⟩

/-- The `buildInsertStatement` of the source. -/
def buildInsertStatement (table : TableReference) (columns : List String)
    (cells : List TableCellChange) : Option SqlCommand :=
  if cells.length = 0 then none
  else
    let acc := insertFold columns cells
    if acc.names.length = 0 then none
    else
      some
        { sql := "INSERT INTO " ++ qualifiedName table ++ " (" ++
            String.intercalate (", ") acc.names ++ ") VALUES (" ++
            String.intercalate (", ") acc.placeholders ++ ");"
          values := acc.values }

/-- The `buildDeleteStatement` of the source: requires a truthy (non-empty)
row locator. -/
def buildDeleteStatement (table : TableReference) (rowLocator : String) :
    Option SqlCommand :=
  if rowLocator = "" then none
  else
    some
      { sql := "DELETE FROM " ++ qualifiedName table ++ " WHERE ctid = $1::tid;"
        values := [JsValue.jsStr rowLocator] }

/-- The statement built for one change inside the `saveChanges` loop. -/
def statementFor (table : TableReference) (columns : List String) :
    TableDataChange → Option SqlCommand
  | TableDataChange.insert cells => buildInsertStatement table columns cells
  | TableDataChange.delete rowLocator => buildDeleteStatement table rowLocator
  | TableDataChange.update rowLocator updates =>
    buildUpdateStatement table columns rowLocator updates

/-- The `readRowCount` helper of the source. -/
def readRowCount (res : QueryResultLike) : Int :=
  match res.rowCount with
  | some n => n
  | none => 0

deriving instance DecidableEq for Except

/-- State of the scripted query executor: the remaining scripted responses
and the log of issued queries. -/
structure ExecState where
  script : List (Except QueryError QueryResultLike)
  log : List (String × List JsValue)
deriving DecidableEq, Repr

/-- One `client.query` call against the script: consume the next scripted
response (an empty script answers with an empty successful result) and log
the issued query. -/
def execQuery (sql : String) (params : List JsValue) (st : ExecState) :
    Except QueryError QueryResultLike × ExecState :=
  match st.script with
  | [] => (Except.ok {}, { script := [], log := st.log ++ [(sql, params)] })
  | r :: rest => (r, { script := rest, log := st.log ++ [(sql, params)] })

/-- Per-kind affected-row tallies. -/
structure SaveCounts where
  updatedRows : Int
  insertedRows : Int
  deletedRows : Int
deriving DecidableEq, Repr

/-- Add an affected-row count to the bucket matching a change's kind. -/
def bumpCounts (change : TableDataChange) (counts : SaveCounts) (n : Int) : SaveCounts :=
  match change with
  | TableDataChange.update _ _ => { counts with updatedRows := counts.updatedRows + n }
  | TableDataChange.insert _ => { counts with insertedRows := counts.insertedRows + n }
  | TableDataChange.delete _ => { counts with deletedRows := counts.deletedRows + n }

/-- The per-change loop of `saveChanges`: untranslatable changes are
skipped, translated ones are executed in order, accumulating affected-row
counts; the first failing execution aborts the loop with its error. -/
def applyChanges (table : TableReference) (columns : List String) :
    List TableDataChange → ExecState → SaveCounts →
    Except QueryError SaveCounts × ExecState
  | [], st, counts => (Except.ok counts, st)
  | change :: rest, st, counts =>
    match statementFor table columns change with
    | none => applyChanges table columns rest st counts
    | some cmd =>
      match execQuery cmd.sql cmd.values st with
      | (Except.error e, st') => (Except.error e, st')
      | (Except.ok res, st') =>
        applyChanges table columns rest st' (bumpCounts change counts (readRowCount res))

/-- A `TableSaveRequest`. -/
structure TableSaveRequest where
  table : TableReference
  columns : List String
  changes : List TableDataChange
deriving DecidableEq, Repr

/-- Observable resource trace of one `saveChanges` call: issued queries, and
how often a connection was borrowed and released. -/
structure SaveTrace where
  queries : List (String × List JsValue)
  connects : Nat
  releases : Nat
deriving DecidableEq, Repr

/-- The `saveChanges` of the source, run against a scripted executor.
Mirrors the control flow exactly: early no-op return before borrowing a
connection; `BEGIN`, the per-change loop, `COMMIT`; any failure is caught,
answered with a `ROLLBACK`, and then rethrown — except that a failing
`ROLLBACK` replaces the caught error with its own, exactly as an exception
thrown inside a `catch` block does; the connection is released in the
`finally` path of every outcome. -/
def saveChanges (request : TableSaveRequest)
    (script : List (Except QueryError QueryResultLike)) :
    Except QueryError SaveCounts × SaveTrace :=
  if request.changes.length = 0 ∨ request.columns.length = 0 then
    (Except.ok ⟨0, 0, 0⟩, ⟨[], 0, 0⟩)
  else
    let st0 : ExecState := ⟨script, []⟩
    match execQuery ("BEGIN") [] st0 with
    | (Except.error e, st1) =>
      match execQuery ("ROLLBACK") [] st1 with
      | (Except.ok _, st2) => (Except.error e, ⟨st2.log, 1, 1⟩)
      | (Except.error e2, st2) => (Except.error e2, ⟨st2.log, 1, 1⟩)
    | (Except.ok _, st1) =>
      match applyChanges request.table request.columns request.changes st1 ⟨0, 0, 0⟩ with
      | (Except.error e, st2) =>
        match execQuery ("ROLLBACK") [] st2 with
        | (Except.ok _, st3) => (Except.error e, ⟨st3.log, 1, 1⟩)
        | (Except.error e2, st3) => (Except.error e2, ⟨st3.log, 1, 1⟩)
      | (Except.ok counts, st2) =>
        match execQuery ("COMMIT") [] st2 with
        | (Except.ok _, st3) => (Except.ok counts, ⟨st3.log, 1, 1⟩)
        | (Except.error e, st3) =>
          match execQuery ("ROLLBACK") [] st3 with
          | (Except.ok _, st4) => (Except.error e, ⟨st4.log, 1, 1⟩)
          | (Except.error e2, st4) => (Except.error e2, ⟨st4.log, 1, 1⟩)

/-- Sort directions of the `TableSort` contract. -/
inductive TableSortDirection where
  | asc
  | desc
deriving DecidableEq, Repr

/-- A `TableSort`: a column name and a direction. -/
structure TableSort where
  columnName : String
  direction : TableSortDirection
deriving DecidableEq, Repr

/-- SQL rendering of a sort direction. -/
def sortDirectionSql : TableSortDirection → String
  | TableSortDirection.asc => "ASC"
  | TableSortDirection.desc => "DESC"

/-- Modelled from the spec: the sortBy-capable revision of
`PostgresTableDataProvider.buildOpenTableSql` is absent from the source
snapshot (only its callers in `openTableService.ts` and its expectations in
the test suite remain), so it is modelled from the spec's words — "ordered
first by `sortBy` (if given: quoted column name + ASC/DESC) then always by
the physical-locator ordering as a stable tiebreak, with
`LIMIT pageSize+1 OFFSET pageIndex*pageSize`". -/
def buildOpenTableSqlSorted (schemaName tableName : String) (limit offset : Int)
    (sortBy : Option TableSort) : String :=
  let orderBy :=
    match sortBy with
    | some s => quoteIdentifier s.columnName ++ " " ++ sortDirectionSql s.direction ++ ", ctid"
    | none => "ctid"
  "SELECT ctid::text AS " ++ quoteIdentifier rowTokenAlias ++ ", * FROM " ++
    quoteIdentifier schemaName ++ "." ++ quoteIdentifier tableName ++
    " ORDER BY " ++ orderBy ++ " LIMIT " ++ toString limit ++ " OFFSET " ++
    toString offset ++ ";"

/-- Modelled from the spec: a page request carrying the optional `sortBy` of
the sortBy-capable revision. -/
structure TablePageSortRequest where
  table : TableReference
  pageSize : JsNum
  pageIndex : Nat
  sortBy : Option TableSort
deriving DecidableEq, Repr

/-- Modelled from the spec: the single table query issued by the
sortBy-capable `loadPage` for a request, with the limit and offset of the
source's `loadPage`. -/
def issuedTableQuerySorted (request : TablePageSortRequest) : String :=
  let pageSize := normalizePageSize request.pageSize DEFAULT_PAGE_SIZE
  buildOpenTableSqlSorted request.table.schemaName request.table.tableName
    (pageSize + 1) ((request.pageIndex : Int) * pageSize) request.sortBy

/-- The spec's scan example: semicolons inside a quoted string, a block
comment and a dollar-quoted block must not split statements. -/
def c1Example : String := "SELECT ';' AS x; SELECT 1 /* ; */; DO $$ ... ; $$; SELECT 3;"

/-- First-occurrence deduplication of cell changes by column index, stated
independently of the insert builder: a cell whose column index was already
seen is dropped, otherwise it is kept and its index recorded. -/
def dedupFirstByIndex : List TableCellChange → List Nat → List TableCellChange
  | [], _ => []
  | u :: rest, seen =>
    if u.columnIndex ∈ seen then dedupFirstByIndex rest seen
    else u :: dedupFirstByIndex rest (seen ++ [u.columnIndex])

/-- Fixture request for grounding the paging theorems. -/
def c4Request : TablePageRequest := ⟨⟨"s", "t"⟩, JsNum.finite 2, 3⟩

/-- Fixture main-query result with three rows for grounding the paging
theorems. -/
def c4MainData : QueryResultLike :=
  { fields := ["__postgres_explorer_row_token__", "a"]
    rows := [
      [("__postgres_explorer_row_token__", JsValue.jsStr "(0,1)"), ("a", JsValue.jsNum 1)],
      [("__postgres_explorer_row_token__", JsValue.jsStr "(0,2)"), ("a", JsValue.jsNum 2)],
      [("__postgres_explorer_row_token__", JsValue.jsStr "(0,3)"), ("a", JsValue.jsNum 3)]] }

/-- The page produced for the fixture request: trimmed to two rows with
`hasNextPage` set. -/
def c4Page : TablePageResult :=
  { table := ⟨"s", "t"⟩
    columns := [⟨"a", some "", some []⟩]
    rows := [⟨some "(0,1)", [JsValue.jsNum 1]⟩, ⟨some "(0,2)", [JsValue.jsNum 2]⟩]
    pageSize := 2
    pageIndex := 3
    hasNextPage := true }

/-- A matched run is no longer than the list it matches against. -/
lemma headMatches_length : ∀ p l, headMatches p l = true → p.length ≤ l.length := by
  intro p
  induction p with
  | nil => intro l _; simp
  | cons x xs ih =>
    intro l h
    cases l with
    | nil => simp [headMatches] at h
    | cons y ys =>
      simp [headMatches] at h
      have := ih ys h.2
      simp
      omega

/-- A dollar tag body together with its closing `$` lies within the text it
was read from. -/
lemma dollarTagBody_length : ∀ s tag, dollarTagBody s = some tag → tag.length + 1 ≤ s.length := by
  intro s
  induction s with
  | nil => intro tag h; simp [dollarTagBody] at h
  | cons c cs ih =>
    intro tag h
    simp only [dollarTagBody] at h
    split at h
    · simp at h
      subst h
      simp
    · split at h
      · rcases Option.map_eq_some'.mp h with ⟨tag2, htag2, rfl⟩
        have := ih tag2 htag2
        simp
        omega
      · simp at h

/-- A read dollar-quote delimiter has at least the two `$` characters and
lies within the text it was read from. -/
lemma readDollarQuoteDelimiter_length :
    ∀ s d, readDollarQuoteDelimiter s = some d → 2 ≤ d.length ∧ d.length ≤ s.length := by
  intro s d h
  cases s with
  | nil => simp [readDollarQuoteDelimiter] at h
  | cons c rest =>
    simp only [readDollarQuoteDelimiter] at h
    split at h
    · rcases Option.map_eq_some'.mp h with ⟨tag, htag, rfl⟩
      have := dollarTagBody_length rest tag htag
      simp
      omega
    · simp at h

/-- Every segment's raw end lies at or after the offset the scan started
from. -/
lemma scanAux_rawEnd_lower (fuel : Nat) :
    ∀ s i st fco, ∀ seg ∈ (scanAux fuel s i st fco).segments, i ≤ seg.rawEnd := by
  induction fuel with
  | zero =>
    intro s i st fco seg h
    simp [scanAux] at h
    simp [h]
  | succ n ih =>
    intro s i st fco seg h
    cases s with
    | nil =>
      simp [scanAux] at h
      simp [h]
    | cons c rest =>
      simp only [scanAux] at h
      cases st <;> dsimp only at h <;>
        repeat' split at h
      all_goals try dsimp only at h
      all_goals
        first
        | (rcases List.mem_cons.mp h with h | h
           · simp [h]
           · have := ih _ _ _ _ _ h; omega)
        | (have hb := ih _ _ _ _ _ h; omega)

/-- Every segment's raw end lies within the scanned suffix. -/
lemma scanAux_rawEnd_upper (fuel : Nat) :
    ∀ s i st fco, ∀ seg ∈ (scanAux fuel s i st fco).segments, seg.rawEnd ≤ i + s.length := by
  induction fuel with
  | zero =>
    intro s i st fco seg h
    simp [scanAux] at h
    simp [h]
  | succ n ih =>
    intro s i st fco seg h
    cases s with
    | nil =>
      simp [scanAux] at h
      simp [h]
    | cons c rest =>
      simp only [scanAux] at h
      cases st <;> dsimp only at h <;>
        repeat' split at h
      all_goals try dsimp only at h
      all_goals
        try (rcases List.mem_cons.mp h with h | h
             · simp [h]
             · have := ih _ _ _ _ _ h
               simp only [List.length_cons] at this ⊢
               omega)
      all_goals
        try (have hb := ih _ _ _ _ _ h
             simp only [List.length_tail, List.length_drop, List.length_cons] at hb ⊢
             omega)
      all_goals
        first
        | (cases rest with
           | nil => simp_all
           | cons hd tl =>
             have := ih _ _ _ _ _ h
             simp only [List.tail_cons, List.length_cons] at this ⊢
             omega)
        | (rename_i delim heq
           have hb := (readDollarQuoteDelimiter_length _ _ heq).2
           have := ih _ _ _ _ _ h
           simp only [List.length_drop, List.length_cons] at this ⊢
           simp only [List.length_cons] at hb
           omega)
        | (rename_i hm
           have hb := headMatches_length _ _ hm
           have := ih _ _ _ _ _ h
           simp only [List.length_drop, List.length_cons] at this ⊢
           simp only [List.length_cons] at hb
           omega)

/-- A statement boundary is recorded only at a `;` consumed in `Normal`
state: every non-final segment end points at a `;` in the text, and the
scan's ghost trace visited that offset in the `Normal` state. -/
lemma scanAux_boundary (fuel : Nat) :
    ∀ s i st fco, s.length ≤ fuel →
      ∀ seg ∈ (scanAux fuel s i st fco).segments, seg.rawEnd < i + s.length →
        s.get? (seg.rawEnd - i) = some ';' ∧
        (seg.rawEnd, ScannerState.normal) ∈ (scanAux fuel s i st fco).visits := by
  induction fuel with
  | zero =>
    intro s i st fco hf seg h hlt
    cases s with
    | nil =>
      simp [scanAux] at h
      rw [h] at hlt
      simp at hlt
    | cons c rest => simp at hf
  | succ n ih =>
    intro s i st fco hf seg h hlt
    cases s with
    | nil =>
      simp [scanAux] at h
      rw [h] at hlt
      simp at hlt
    | cons c rest =>
      simp only [List.length_cons] at hf hlt
      simp only [scanAux] at h ⊢
      cases st <;> dsimp only at h ⊢ <;> repeat' split at h
      all_goals try dsimp only at h
      all_goals try (rcases List.mem_cons.mp h with hseg | h)
      -- the pushed boundary segment itself
      all_goals
        try (subst hseg
             refine ⟨?_, ?_⟩
             · simp [*]
             · simp only [*]
               simp)
      -- one-character steps
      all_goals
        try (have hlow := scanAux_rawEnd_lower n rest (i + 1) _ _ seg h
             have hsub := ih rest (i + 1) _ _ (by omega) seg h (by omega)
             refine ⟨?_, ?_⟩
             · rw [show seg.rawEnd - i = (seg.rawEnd - (i + 1)) + 1 from by omega]
               simpa using hsub.1
             · repeat' split <;>
                 first
                 | contradiction
                 | exact List.mem_cons_of_mem _ hsub.2
                 | simp_all)
      -- two-character steps
      all_goals
        try (cases rest with
             | nil => simp_all
             | cons hd tl =>
               simp only [List.tail_cons] at h
               have hlow := scanAux_rawEnd_lower n tl (i + 2) _ _ seg h
               have hsub := ih tl (i + 2) _ _ (by simp at hf; omega) seg h
                 (by simp at hlt; omega)
               refine ⟨?_, ?_⟩
               · rw [show seg.rawEnd - i = ((seg.rawEnd - (i + 2)) + 1) + 1 from by omega]
                 simpa using hsub.1
               · repeat' split <;>
                   first
                   | contradiction
                   | exact List.mem_cons_of_mem _ hsub.2
                   | simp_all)
      -- dollar-quote openers and closers (variable-length steps)
      all_goals
        try (rename_i delim heq
             have hdl := (readDollarQuoteDelimiter_length _ _ heq).2
             simp only [List.length_cons] at hdl
             have hlow := scanAux_rawEnd_lower n (rest.drop (delim.length - 1))
               (i + 1 + (delim.length - 1)) _ _ seg h
             have hsub := ih (rest.drop (delim.length - 1)) (i + 1 + (delim.length - 1)) _ _
               (by simp only [List.length_drop]; omega) seg h
               (by simp only [List.length_drop]; omega)
             refine ⟨?_, ?_⟩
             · rw [show seg.rawEnd - i =
                     ((delim.length - 1) + (seg.rawEnd - (i + 1 + (delim.length - 1)))) + 1 from
                   by omega]
               rw [List.get?_cons_succ, ← List.get?_drop]
               exact hsub.1
             · repeat' split <;>
                 first
                 | contradiction
                 | exact List.mem_cons_of_mem _ hsub.2
                 | simp_all)
      all_goals
        try (rename_i delim hm
             have hdl := headMatches_length _ _ hm
             simp only [List.length_cons] at hdl
             have hlow := scanAux_rawEnd_lower n (rest.drop (delim.length - 1))
               (i + 1 + (delim.length - 1)) _ _ seg h
             have hsub := ih (rest.drop (delim.length - 1)) (i + 1 + (delim.length - 1)) _ _
               (by simp only [List.length_drop]; omega) seg h
               (by simp only [List.length_drop]; omega)
             refine ⟨?_, ?_⟩
             · rw [show seg.rawEnd - i =
                     ((delim.length - 1) + (seg.rawEnd - (i + 1 + (delim.length - 1)))) + 1 from
                   by omega]
               rw [List.get?_cons_succ, ← List.get?_drop]
               exact hsub.1
             · repeat' split <;>
                 first
                 | contradiction
                 | exact List.mem_cons_of_mem _ hsub.2
                 | simp_all)

/-- Segment raw ends are produced in strictly increasing order. -/
lemma scanAux_segments_sorted (fuel : Nat) :
    ∀ s i st fco, List.Pairwise (· < ·) (((scanAux fuel s i st fco).segments).map SqlSegment.rawEnd) := by
  induction fuel with
  | zero => intro s i st fco; simp [scanAux]
  | succ n ih =>
    intro s i st fco
    cases s with
    | nil => simp [scanAux]
    | cons c rest =>
      simp only [scanAux]
      cases st <;> dsimp only <;> repeat' split
      all_goals try (exact ih _ _ _ _)
      all_goals
        (dsimp only
         simp only [List.map_cons, List.pairwise_cons]
         constructor
         · intro x hx
           rcases List.mem_map.mp hx with ⟨seg, hseg, rfl⟩
           have := scanAux_rawEnd_lower n rest (i + 1) ScannerState.normal none seg hseg
           omega
         · exact ih _ _ _ _)

lemma collectSeparatorOffsets_sorted (text : String) :
    List.Pairwise (· < ·) (collectSeparatorOffsets text) := by
  unfold collectSeparatorOffsets
  exact List.Pairwise.filter _ (scanAux_segments_sorted _ _ _ _ _)

lemma findSegmentEnd_self : ∀ (l : List Nat) (b len : Nat),
    List.Pairwise (· < ·) l → b ∈ l → findSegmentEnd b l len = b := by
  intro l
  induction l with
  | nil => intro b len _ hb; simp at hb
  | cons s rest ih =>
    intro b len hp hb
    rcases List.pairwise_cons.mp hp with ⟨hall, hrest⟩
    rcases List.mem_cons.mp hb with rfl | hb
    · simp [findSegmentEnd]
    · have hlt : s < b := hall b hb
      rw [findSegmentEnd]
      rw [if_neg (by omega)]
      exact ih b len hrest hb

lemma findSegmentStartGo_after : ∀ (l : List Nat) (b : Nat),
    List.Pairwise (· > ·) l → b ∈ l → findSegmentStartGo (b + 1) l = b + 1 := by
  intro l
  induction l with
  | nil => intro b _ hb; simp at hb
  | cons x rest ih =>
    intro b hp hb
    rcases List.pairwise_cons.mp hp with ⟨hall, hrest⟩
    rcases List.mem_cons.mp hb with rfl | hb
    · rw [findSegmentStartGo, if_pos (by push_cast; omega)]
    · have hgt : x > b := hall b hb
      rw [findSegmentStartGo, if_neg (by push_cast; omega)]
      exact ih b hrest hb

lemma findSegmentStartGo_le : ∀ (l : List Nat) (c : Nat), findSegmentStartGo c l ≤ c := by
  intro l
  induction l with
  | nil => intro c; simp [findSegmentStartGo]
  | cons x rest ih =>
    intro c
    rw [findSegmentStartGo]
    split
    · rename_i hx; push_cast at hx; omega
    · exact ih c

lemma findSegmentStart_le (c : Nat) (l : List Nat) : findSegmentStart c l ≤ c :=
  findSegmentStartGo_le l.reverse c

lemma findSegmentStart_after (b : Nat) (l : List Nat)
    (hp : List.Pairwise (· < ·) l) (hb : b ∈ l) : findSegmentStart (b + 1) l = b + 1 := by
  unfold findSegmentStart
  refine findSegmentStartGo_after l.reverse b ?_ (List.mem_reverse.mpr hb)
  rw [List.pairwise_reverse]
  exact hp

lemma findSegmentEnd_boundary (text : String) (b : Nat) (hb : b ∈ collectSeparatorOffsets text) :
    findSegmentEnd b (collectSeparatorOffsets text) text.data.length = b :=
  findSegmentEnd_self _ b _ (collectSeparatorOffsets_sorted text) hb

/-- The head surviving a whitespace `dropWhile` is not whitespace. -/
lemma dropWhile_head?_false :
    ∀ (l : List Char) (ch : Char),
      (l.dropWhile isWhitespaceChar).head? = some ch → isWhitespaceChar ch = false := by
  intro l
  induction l with
  | nil => intro ch h; simp [List.dropWhile] at h
  | cons x xs ih =>
    intro ch h
    rw [List.dropWhile_cons] at h
    split at h
    · exact ih ch h
    · rename_i hws
      simp at h
      subst h
      simpa using hws

lemma trimRightChars_last (l : List Char) (ch : Char)
    (h : (trimRightChars l).getLast? = some ch) : isWhitespaceChar ch = false := by
  unfold trimRightChars at h
  rw [List.getLast?_reverse] at h
  exact dropWhile_head?_false _ _ h

/-- Every statement emitted by `getSqlStatements` is non-empty and ends in a
non-whitespace character. -/
lemma getSqlStatements_content (text : String) :
    ∀ st ∈ getSqlStatements text,
      st.text.data ≠ [] ∧
      ∀ ch, st.text.data.getLast? = some ch → isWhitespaceChar ch = false := by
  intro st hst
  rw [getSqlStatements, List.mem_filterMap] at hst
  obtain ⟨seg, hseg, hf⟩ := hst
  unfold segmentStatement at hf
  split at hf
  · simp at hf
  · dsimp only at hf
    split at hf
    · simp at hf
    · split at hf
      · simp at hf
      · rename_i hlen
        simp only [Option.some.injEq] at hf
        subst hf
        constructor
        · intro hnil
          dsimp only at hnil
          apply hlen
          simp [String.length, hnil]
        · intro ch hch
          exact trimRightChars_last _ _ hch


lemma skipLineComment_length : ∀ l : List Char, (skipLineComment l).length ≤ l.length := by
  intro l
  induction l with
  | nil => simp [skipLineComment]
  | cons c rest ih =>
    simp only [skipLineComment]
    split
    · simp
    · simp only [List.length_cons]
      omega

lemma skipBlockComment_length :
    ∀ (F d : Nat) (l : List Char), (skipBlockComment F d l).length ≤ l.length := by
  intro F
  induction F with
  | zero => intro d l; cases l <;> simp [skipBlockComment]
  | succ n ih =>
    intro d l
    cases l with
    | nil => simp [skipBlockComment]
    | cons c rest =>
      simp only [skipBlockComment]
      repeat' split
      all_goals
        first
        | (refine le_trans (ih _ _) ?_
           simp only [List.length_tail, List.length_cons]
           omega)
        | (simp only [List.length_tail, List.length_cons]; omega)

lemma skipBlockComment_fuel : ∀ (F1 F2 d : Nat) (l : List Char),
    l.length ≤ F1 → l.length ≤ F2 → skipBlockComment F1 d l = skipBlockComment F2 d l := by
  intro F1
  induction F1 with
  | zero =>
    intro F2 d l h1 h2
    have hl : l = [] := List.eq_nil_of_length_eq_zero (by omega)
    subst hl
    cases F2 <;> simp [skipBlockComment]
  | succ n ih =>
    intro F2 d l h1 h2
    cases l with
    | nil => cases F2 <;> simp [skipBlockComment]
    | cons c rest =>
      cases F2 with
      | zero => simp at h2
      | succ m =>
        simp only [List.length_cons] at h1 h2
        simp only [skipBlockComment]
        repeat' split <;> try contradiction
        all_goals
          first
          | rfl
          | (apply ih <;> ((try simp only [List.length_tail]); omega))

lemma wsCommentOnly_fuel : ∀ (F1 F2 : Nat) (l : List Char),
    l.length ≤ F1 → l.length ≤ F2 → wsCommentOnly F1 l = wsCommentOnly F2 l := by
  intro F1
  induction F1 with
  | zero =>
    intro F2 l h1 h2
    have hl : l = [] := List.eq_nil_of_length_eq_zero (by omega)
    subst hl
    cases F2 <;> simp [wsCommentOnly]
  | succ n ih =>
    intro F2 l h1 h2
    cases l with
    | nil => cases F2 <;> simp [wsCommentOnly]
    | cons c rest =>
      cases F2 with
      | zero => simp at h2
      | succ m =>
        simp only [List.length_cons] at h1 h2
        simp only [wsCommentOnly]
        repeat' split <;> try contradiction
        all_goals
          first
          | rfl
          | (apply ih <;> ((try simp only [List.length_tail]); omega))
          | (apply ih <;>
               (refine le_trans (skipLineComment_length _) ?_
                (try simp only [List.length_tail]); omega))
          | (rw [skipBlockComment_fuel n m 1 rest.tail
                  (by simp only [List.length_tail]; omega)
                  (by simp only [List.length_tail]; omega)]
             apply ih <;>
               (refine le_trans (skipBlockComment_length _ _ _) ?_
                (try simp only [List.length_tail]); omega))

lemma wsCommentOnly_nil (F : Nat) : wsCommentOnly F [] = true := by
  cases F <;> rfl

lemma skipBlockComment_nil (F d : Nat) : skipBlockComment F d [] = [] := by
  cases F <;> rfl

lemma wsCommentOnly_ws (F : Nat) (c : Char) (l : List Char)
    (hc : isWhitespaceChar c = true) (hl : l.length < F) :
    wsCommentOnly F (c :: l) = wsCommentOnly F l := by
  cases F with
  | zero => omega
  | succ n =>
    simp only [wsCommentOnly, hc, if_true]
    exact wsCommentOnly_fuel n (n + 1) l (by omega) (by omega)

lemma wsCommentOnly_lineOpen (F : Nat) (l : List Char) (hl : l.length + 2 ≤ F) :
    wsCommentOnly F ('-' :: '-' :: l) = wsCommentOnly F (skipLineComment l) := by
  cases F with
  | zero => omega
  | succ n =>
    have hws : isWhitespaceChar '-' = false := by decide
    simp only [wsCommentOnly, hws, Bool.false_eq_true, if_false]
    rw [if_pos (by simp)]
    simp only [List.tail_cons]
    refine wsCommentOnly_fuel n (n + 1) _ ?_ ?_ <;>
      (refine le_trans (skipLineComment_length _) ?_; omega)

lemma wsCommentOnly_blockOpen (F : Nat) (l : List Char) (hl : l.length + 2 ≤ F) :
    wsCommentOnly F ('/' :: '*' :: l) = wsCommentOnly F (skipBlockComment F 1 l) := by
  cases F with
  | zero => omega
  | succ n =>
    have hws : isWhitespaceChar '/' = false := by decide
    simp only [wsCommentOnly, hws, Bool.false_eq_true, if_false]
    rw [if_neg (by simp), if_pos (by simp)]
    simp only [List.tail_cons]
    rw [skipBlockComment_fuel n (n + 1) 1 l (by omega) (by omega)]
    refine wsCommentOnly_fuel n (n + 1) _ ?_ ?_ <;>
      (refine le_trans (skipBlockComment_length _ _ _) ?_; omega)

lemma wsCommentOnly_content (F : Nat) (c : Char) (l : List Char)
    (hws : isWhitespaceChar c = false)
    (h1 : ¬(c = '-' ∧ l.head? = some '-'))
    (h2 : ¬(c = '/' ∧ l.head? = some '*'))
    (hF : 0 < F) :
    wsCommentOnly F (c :: l) = false := by
  cases F with
  | zero => omega
  | succ n =>
    simp only [wsCommentOnly, hws, Bool.false_eq_true, if_false]
    rw [if_neg h1, if_neg h2]

lemma skipBlockComment_open (F d : Nat) (l : List Char) (hl : l.length + 2 ≤ F) :
    skipBlockComment F d ('/' :: '*' :: l) = skipBlockComment F (d + 1) l := by
  cases F with
  | zero => omega
  | succ n =>
    simp only [skipBlockComment]
    rw [if_pos (by simp)]
    simp only [List.tail_cons]
    exact skipBlockComment_fuel n (n + 1) (d + 1) l (by omega) (by omega)

lemma skipBlockComment_close (F d : Nat) (l : List Char) (hd : d ≤ 1) (hF : 0 < F) :
    skipBlockComment F d ('*' :: '/' :: l) = l := by
  cases F with
  | zero => omega
  | succ n =>
    simp only [skipBlockComment]
    rw [if_neg (by simp), if_pos (by simp), if_pos hd]
    simp

lemma skipBlockComment_closeDeep (F d : Nat) (l : List Char) (hd : ¬d ≤ 1)
    (hl : l.length + 2 ≤ F) :
    skipBlockComment F d ('*' :: '/' :: l) = skipBlockComment F (d - 1) l := by
  cases F with
  | zero => omega
  | succ n =>
    simp only [skipBlockComment]
    rw [if_neg (by simp), if_pos (by simp), if_neg hd]
    simp only [List.tail_cons]
    exact skipBlockComment_fuel n (n + 1) (d - 1) l (by omega) (by omega)

lemma skipBlockComment_other (F d : Nat) (c : Char) (l : List Char)
    (h1 : ¬(c = '/' ∧ l.head? = some '*'))
    (h2 : ¬(c = '*' ∧ l.head? = some '/'))
    (hl : l.length < F) :
    skipBlockComment F d (c :: l) = skipBlockComment F d l := by
  cases F with
  | zero => omega
  | succ n =>
    simp only [skipBlockComment]
    rw [if_neg h1, if_neg h2]
    exact skipBlockComment_fuel n (n + 1) d l (by omega) (by omega)

lemma skipLineComment_newline (l : List Char) : skipLineComment ('\n' :: l) = l := by
  simp [skipLineComment]

lemma skipLineComment_other (c : Char) (l : List Char) (hc : ¬c = '\n') :
    skipLineComment (c :: l) = skipLineComment l := by
  simp only [skipLineComment]
  rw [if_neg hc]

lemma head?_take (l : List Char) (n : Nat) (hn : 0 < n) : (l.take n).head? = l.head? := by
  cases n with
  | zero => omega
  | succ m => cases l <;> simp



lemma noteContent_isSome (fco : Option Nat) (i : Nat) : (noteContent fco i).isSome = true := by
  cases fco <;> rfl

lemma scanAux_head_isSome (fuel : Nat) :
    ∀ s i st fco, fco.isSome = true →
      ∀ seg0 segs, (scanAux fuel s i st fco).segments = seg0 :: segs →
        seg0.firstContentOffset.isSome = true := by
  induction fuel with
  | zero =>
    intro s i st fco hfco seg0 segs h
    simp only [scanAux] at h
    injection h with h1 h2
    rw [← h1]
    exact hfco
  | succ n ih =>
    intro s i st fco hfco seg0 segs h
    cases s with
    | nil =>
      simp only [scanAux] at h
      injection h with h1 h2
      rw [← h1]
      exact hfco
    | cons c rest =>
      simp only [scanAux] at h
      cases st <;> dsimp only at h <;> repeat' split at h
      all_goals try dsimp only at h
      all_goals
        first
        | exact ih _ _ _ _ hfco _ _ h
        | exact ih _ _ _ _ (noteContent_isSome _ _) _ _ h
        | (injection h with h1 h2
           rw [← h1]
           exact hfco)

lemma fcoInv_mono (t : List Char) (i j : Nat) (fco : Option Nat)
    (hinv : ∀ c0, fco = some c0 →
      c0 < i ∧ ∃ ch, t.get? c0 = some ch ∧ isWhitespaceChar ch = false)
    (hij : i ≤ j) :
    ∀ c0, fco = some c0 →
      c0 < j ∧ ∃ ch, t.get? c0 = some ch ∧ isWhitespaceChar ch = false := by
  intro c0 hc0
  rcases hinv c0 hc0 with ⟨h1, h2⟩
  exact ⟨by omega, h2⟩

lemma drop_succ_of_drop (t : List Char) (i : Nat) (c : Char) (rest : List Char)
    (h : c :: rest = t.drop i) : rest = t.drop (i + 1) := by
  have ht : (t.drop i).tail = t.drop (i + 1) := List.tail_drop t i
  rw [← h] at ht
  simpa using ht

lemma drop_add_of_drop (t rest : List Char) (i k : Nat)
    (h : rest = t.drop (i + 1)) : rest.drop k = t.drop (i + 1 + k) := by
  rw [h, List.drop_drop]

lemma noteContent_inv (t : List Char) (rest : List Char) (i : Nat) (c : Char) (fco : Option Nat)
    (hdrop : c :: rest = t.drop i)
    (hws : isWhitespaceChar c = false)
    (hinv : ∀ c0, fco = some c0 →
      c0 < i ∧ ∃ ch, t.get? c0 = some ch ∧ isWhitespaceChar ch = false)
    (j : Nat) (hij : i < j) :
    ∀ c0, noteContent fco i = some c0 →
      c0 < j ∧ ∃ ch, t.get? c0 = some ch ∧ isWhitespaceChar ch = false := by
  intro c0 hc0
  cases fco with
  | some a =>
    obtain rfl : a = c0 := by simpa [noteContent] using hc0
    rcases hinv a rfl with ⟨h1, h2⟩
    exact ⟨by omega, h2⟩
  | none =>
    obtain rfl : i = c0 := by simpa [noteContent] using hc0
    refine ⟨hij, c, ?_, hws⟩
    have hh : (t.drop i).get? 0 = t.get? (i + 0) := List.get?_drop t i 0
    rw [← hdrop] at hh
    simpa using hh.symm

set_option maxHeartbeats 2000000 in
/-- Every recorded first content offset lies strictly inside its segment and
points at a non-whitespace character of the text. -/
lemma scanAux_fco_char (fuel : Nat) :
    ∀ (t s : List Char) (i : Nat) st fco, s.length ≤ fuel → s = t.drop i →
      (∀ c0, fco = some c0 →
        c0 < i ∧ ∃ ch, t.get? c0 = some ch ∧ isWhitespaceChar ch = false) →
      ∀ seg ∈ (scanAux fuel s i st fco).segments, ∀ c0, seg.firstContentOffset = some c0 →
        c0 < seg.rawEnd ∧ ∃ ch, t.get? c0 = some ch ∧ isWhitespaceChar ch = false := by
  induction fuel with
  | zero =>
    intro t s i st fco hf hdrop hinv seg h c0 hc0
    simp only [scanAux] at h
    simp only [List.mem_singleton] at h
    subst h
    rcases hinv c0 hc0 with ⟨h1, h2⟩
    exact ⟨h1, h2⟩
  | succ n ih =>
    intro t s i st fco hf hdrop hinv seg h c0 hc0
    cases s with
    | nil =>
      simp only [scanAux] at h
      simp only [List.mem_singleton] at h
      subst h
      rcases hinv c0 hc0 with ⟨h1, h2⟩
      exact ⟨h1, h2⟩
    | cons c rest =>
      simp only [List.length_cons] at hf
      simp only [scanAux] at h
      cases st <;> dsimp only at h <;> repeat' split at h
      all_goals try dsimp only at h
      -- the boundary branch pushes the segment under construction
      all_goals try
        (rcases List.mem_cons.mp h with hseg | h
         · subst hseg
           rcases hinv c0 hc0 with ⟨h1, h2⟩
           exact ⟨h1, h2⟩
         · exact ih t rest (i + 1) _ _ (by omega) (drop_succ_of_drop t i c rest hdrop)
             (by intro c1 hc1; exact Option.noConfusion hc1) seg h c0 hc0)
      -- one-character steps that keep the pending content offset
      all_goals try
        (exact ih t rest (i + 1) _ _ (by omega) (drop_succ_of_drop t i c rest hdrop)
          (fcoInv_mono t i (i + 1) fco hinv (by omega)) seg h c0 hc0)
      -- one-character steps that record content at the current offset
      all_goals try
        (exact ih t rest (i + 1) _ _ (by omega) (drop_succ_of_drop t i c rest hdrop)
          (noteContent_inv t rest i c fco hdrop (by simp_all [isWhitespaceChar]) hinv
            (i + 1) (by omega)) seg h c0 hc0)
      -- two-character steps
      all_goals try
        (cases rest with
         | nil => simp_all
         | cons hd tl =>
           simp only [List.tail_cons] at h
           exact ih t tl (i + 2) _ _ (by simp only [List.length_cons] at hf; omega)
             (drop_succ_of_drop t (i + 1) hd tl (drop_succ_of_drop t i c (hd :: tl) hdrop))
             (fcoInv_mono t i (i + 2) fco hinv (by omega)) seg h c0 hc0)
      -- dollar-quote opener (records content, variable-length step)
      all_goals try
        (rename_i delim heq
         exact ih t (rest.drop (delim.length - 1)) (i + 1 + (delim.length - 1)) _ _
           (by simp only [List.length_drop]; omega)
           (drop_add_of_drop t rest i (delim.length - 1) (drop_succ_of_drop t i c rest hdrop))
           (noteContent_inv t rest i c fco hdrop (by simp_all [isWhitespaceChar]) hinv
             _ (by omega)) seg h c0 hc0)
      -- dollar-quote closer (keeps the pending offset, variable-length step)
      all_goals
        (rename_i delim hm
         exact ih t (rest.drop (delim.length - 1)) (i + 1 + (delim.length - 1)) _ _
           (by simp only [List.length_drop]; omega)
           (drop_add_of_drop t rest i (delim.length - 1) (drop_succ_of_drop t i c rest hdrop))
           (fcoInv_mono t i (i + 1 + (delim.length - 1)) fco hinv (by omega)) seg h c0 hc0)



lemma trimRightWhitespace_gt (text : String) :
    ∀ (E c : Nat) (ch : Char), c < E → text.data.get? c = some ch →
      isWhitespaceChar ch = false → c < trimRightWhitespace text E := by
  intro E
  induction E with
  | zero => intro c ch hc _ _; omega
  | succ e ih =>
    intro c ch hc hch hws
    rw [trimRightWhitespace]
    split
    · rename_i w hw
      split
      · rename_i hwsw
        refine ih c ch ?_ hch hws
        rcases Nat.lt_or_ge c e with hlt | hge
        · exact hlt
        · have hce : c = e := by omega
          subst hce
          rw [hch] at hw
          injection hw with hww
          rw [← hww] at hwsw
          rw [hws] at hwsw
          cases hwsw
      · omega
    · omega

lemma trimRightChars_ne_nil (l : List Char) (ch : Char)
    (hh : l.head? = some ch) (hws : isWhitespaceChar ch = false) :
    trimRightChars l ≠ [] := by
  intro hnil
  unfold trimRightChars at hnil
  rw [List.reverse_eq_nil_iff, List.dropWhile_eq_nil_iff] at hnil
  cases l with
  | nil => simp at hh
  | cons x xs =>
    simp only [List.head?_cons, Option.some.injEq] at hh
    rw [← hh] at hws
    have hx := hnil x (by simp)
    rw [hws] at hx
    cases hx

/-- Within a full-text scan, every recorded content offset points at a
non-whitespace character strictly inside its segment. -/
lemma scanSqlSegments_fco_char (text : String) :
    ∀ seg ∈ scanSqlSegments text, ∀ c0, seg.firstContentOffset = some c0 →
      c0 < seg.rawEnd ∧ ∃ ch, text.data.get? c0 = some ch ∧ isWhitespaceChar ch = false := by
  intro seg hseg
  exact scanAux_fco_char text.data.length text.data text.data 0 ScannerState.normal none
    (le_refl _) (by simp) (by intro c1 hc1; exact Option.noConfusion hc1) seg hseg

/-- A segment yields a statement exactly when the scan recorded a first
content offset for it. -/
lemma segmentStatement_isSome_iff (text : String) :
    ∀ seg ∈ scanSqlSegments text,
      ((segmentStatement text seg).isSome = true ↔ seg.firstContentOffset.isSome = true) := by
  intro seg hseg
  cases hfco : seg.firstContentOffset with
  | none =>
    unfold segmentStatement
    rw [hfco]
    simp
  | some c =>
    rcases scanSqlSegments_fco_char text seg hseg c hfco with ⟨hcr, ch, hch, hws⟩
    unfold segmentStatement
    rw [hfco]
    dsimp only
    have he : c < trimRightWhitespace text seg.rawEnd :=
      trimRightWhitespace_gt text seg.rawEnd c ch hcr hch hws
    rw [if_neg (by omega)]
    have hhead :
        ((text.data.drop c).take (trimRightWhitespace text seg.rawEnd - c)).head? = some ch := by
      rw [head?_take _ _ (by omega), ← List.get?_zero, List.get?_drop]
      simpa using hch
    have hne : (jsTrimEnd (sliceStr text c (trimRightWhitespace text seg.rawEnd))).data ≠ [] := by
      unfold jsTrimEnd sliceStr
      exact trimRightChars_ne_nil _ ch hhead hws
    rw [if_neg (by intro hlen; exact hne (List.eq_nil_of_length_eq_zero hlen))]
    simp



lemma take_span_cons (c : Char) (rest : List Char) (i r : Nat) (hr : i + 1 ≤ r) :
    (c :: rest).take (r - i) = c :: rest.take (r - (i + 1)) := by
  rw [show r - i = (r - (i + 1)) + 1 from by omega, List.take_succ_cons]

lemma take_span_cons2 (c d : Char) (rest : List Char) (i r : Nat) (hr : i + 2 ≤ r) :
    (c :: d :: rest).take (r - i) = c :: d :: rest.take (r - (i + 2)) := by
  rw [show r - i = ((r - (i + 2)) + 1) + 1 from by omega, List.take_succ_cons,
    List.take_succ_cons]

lemma take_length_le (rest : List Char) (k : Nat) : (rest.take k).length ≤ rest.length := by
  rw [List.length_take]
  exact Nat.min_le_right _ _

lemma take_head?_cases (rest : List Char) (k : Nat) :
    (rest.take k).head? = none ∨ (rest.take k).head? = rest.head? := by
  cases k with
  | zero => left; simp
  | succ m => right; exact head?_take rest (m + 1) (by omega)


set_option maxHeartbeats 4000000 in
/-- The central content invariant: within any scan, each produced segment
carries no first content offset exactly when its pending characters are pure
whitespace and comments; the first conclusion handles every segment after
the head, the second the head segment in a comment-or-normal state. -/
lemma scanAux_dropSpec (F : Nat) (fuel : Nat) :
    ∀ (s : List Char) (i : Nat) (st : ScannerState) (fco : Option Nat),
      s.length ≤ fuel → s.length ≤ F →
      ((∀ seg0 segs, (scanAux fuel s i st fco).segments = seg0 :: segs →
          segmentsDropSpec F (s.drop (seg0.rawEnd + 1 - i)) (seg0.rawEnd + 1) segs) ∧
        (fco = none → inertState st →
          ∀ seg0 segs, (scanAux fuel s i st fco).segments = seg0 :: segs →
            (seg0.firstContentOffset = none ↔
              inertRest F st (s.take (seg0.rawEnd - i)) = true))) := by
  induction fuel with
  | zero =>
    intro s i st fco hf hF
    have hs : s = [] := List.eq_nil_of_length_eq_zero (by omega)
    subst hs
    constructor
    · intro seg0 segs h
      simp only [scanAux] at h
      injection h with h1 h2
      rw [← h2]
      exact trivial
    · intro hfco hst seg0 segs h
      subst hfco
      simp only [scanAux] at h
      injection h with h1 h2
      rw [← h1]
      cases st
      case singleQuote => simp [inertState] at hst
      case doubleQuote => simp [inertState] at hst
      case dollarQuote d => simp [inertState] at hst
      all_goals simp [inertRest, wsCommentOnly_nil, skipLineComment, skipBlockComment_nil]
  | succ n ih =>
    intro s i st fco hf hF
    cases s with
    | nil =>
      constructor
      · intro seg0 segs h
        simp only [scanAux] at h
        injection h with h1 h2
        rw [← h2]
        exact trivial
      · intro hfco hst seg0 segs h
        subst hfco
        simp only [scanAux] at h
        injection h with h1 h2
        rw [← h1]
        cases st
        case singleQuote => simp [inertState] at hst
        case doubleQuote => simp [inertState] at hst
        case dollarQuote d => simp [inertState] at hst
        all_goals simp [inertRest, wsCommentOnly_nil, skipLineComment, skipBlockComment_nil]
    | cons c rest =>
      simp only [List.length_cons] at hf hF
      constructor
      · -- every segment after the head satisfies the specification
        intro seg0 segs h
        simp only [scanAux] at h
        cases st <;> dsimp only at h <;> repeat' split at h
        all_goals try dsimp only at h
        -- the boundary branch: the tail comes from a fresh normal scan
        all_goals try
          (injection h with h1 h2
           rw [← h1, ← h2]
           dsimp only
           rw [show i + 1 - i = 1 from by omega, List.drop_one, List.tail_cons]
           rcases htail : (scanAux n rest (i + 1) ScannerState.normal none).segments with
             _ | ⟨seg1, segs1⟩
           · exact trivial
           · simp only [segmentsDropSpec]
             refine ⟨?_, (ih rest (i + 1) ScannerState.normal none (by omega)
               (by omega)).1 seg1 segs1 htail⟩
             have h2p := (ih rest (i + 1) ScannerState.normal none (by omega) (by omega)).2
               rfl trivial seg1 segs1 htail
             simpa [inertRest] using h2p)
        -- one-character steps
        all_goals try
          (have hlow := scanAux_rawEnd_lower n rest (i + 1) _ _ seg0
             (by rw [h]; exact List.mem_cons_self _ _)
           have hdr : (c :: rest).drop (seg0.rawEnd + 1 - i) =
               rest.drop (seg0.rawEnd + 1 - (i + 1)) := by
             rw [show seg0.rawEnd + 1 - i = (seg0.rawEnd + 1 - (i + 1)) + 1 from by omega,
               List.drop_succ_cons]
           rw [hdr]
           exact (ih rest (i + 1) _ _ (by omega) (by omega)).1 seg0 segs h)
        -- two-character steps
        all_goals try
          (cases rest with
           | nil => simp_all
           | cons hd tl =>
             simp only [List.tail_cons] at h
             have hlow := scanAux_rawEnd_lower n tl (i + 2) _ _ seg0
               (by rw [h]; exact List.mem_cons_self _ _)
             have hdr : (c :: hd :: tl).drop (seg0.rawEnd + 1 - i) =
                 tl.drop (seg0.rawEnd + 1 - (i + 2)) := by
               rw [show seg0.rawEnd + 1 - i = ((seg0.rawEnd + 1 - (i + 2)) + 1) + 1 from by omega,
                 List.drop_succ_cons, List.drop_succ_cons]
             rw [hdr]
             exact (ih tl (i + 2) _ _ (by simp only [List.length_cons] at hf; omega)
               (by simp only [List.length_cons] at hF; omega)).1 seg0 segs h)
        -- variable-length dollar-quote steps
        all_goals
          (rename_i delim hco
           have hlow := scanAux_rawEnd_lower n (rest.drop (delim.length - 1))
             (i + 1 + (delim.length - 1)) _ _ seg0 (by rw [h]; exact List.mem_cons_self _ _)
           have hdr : (c :: rest).drop (seg0.rawEnd + 1 - i) =
               (rest.drop (delim.length - 1)).drop
                 (seg0.rawEnd + 1 - (i + 1 + (delim.length - 1))) := by
             rw [List.drop_drop,
               show seg0.rawEnd + 1 - i =
                 ((delim.length - 1) + (seg0.rawEnd + 1 - (i + 1 + (delim.length - 1)))) + 1 from
                   by omega,
               List.drop_succ_cons]
           rw [hdr]
           exact (ih (rest.drop (delim.length - 1)) (i + 1 + (delim.length - 1)) _ _
             (by simp only [List.length_drop]; omega)
             (by simp only [List.length_drop]; omega)).1 seg0 segs h)
      · -- the head segment in an inert state
        intro hfco hst seg0 segs h
        subst hfco
        simp only [scanAux] at h
        cases st
        case singleQuote => simp [inertState] at hst
        case doubleQuote => simp [inertState] at hst
        case dollarQuote delim => simp [inertState] at hst
        case normal =>
          dsimp only at h
          split at h
          · -- line comment opener
            rename_i hA
            obtain ⟨hc, hr⟩ := hA
            cases rest with
            | nil => exact Option.noConfusion hr
            | cons hd tl =>
              simp only [List.head?_cons, Option.some.injEq] at hr
              simp only [List.tail_cons] at h
              have hlow := scanAux_rawEnd_lower n tl (i + 2) ScannerState.lineComment none seg0
                (by rw [h]; exact List.mem_cons_self _ _)
              have hIH := (ih tl (i + 2) ScannerState.lineComment none
                (by simp only [List.length_cons] at hf; omega)
                (by simp only [List.length_cons] at hF; omega)).2 rfl trivial seg0 segs h
              simp only [inertRest] at hIH ⊢
              rw [take_span_cons2 c hd tl i seg0.rawEnd (by omega), hc, hr]
              rw [wsCommentOnly_lineOpen F (tl.take (seg0.rawEnd - (i + 2)))
                (by have := take_length_le tl (seg0.rawEnd - (i + 2))
                    simp only [List.length_cons] at hF
                    omega)]
              exact hIH
          · split at h
            · -- block comment opener
              rename_i hnA hB
              obtain ⟨hc, hr⟩ := hB
              cases rest with
              | nil => exact Option.noConfusion hr
              | cons hd tl =>
                simp only [List.head?_cons, Option.some.injEq] at hr
                simp only [List.tail_cons] at h
                have hlow := scanAux_rawEnd_lower n tl (i + 2)
                  (ScannerState.blockComment 1) none seg0
                  (by rw [h]; exact List.mem_cons_self _ _)
                have hIH := (ih tl (i + 2) (ScannerState.blockComment 1) none
                  (by simp only [List.length_cons] at hf; omega)
                  (by simp only [List.length_cons] at hF; omega)).2 rfl trivial seg0 segs h
                simp only [inertRest] at hIH ⊢
                rw [take_span_cons2 c hd tl i seg0.rawEnd (by omega), hc, hr]
                rw [wsCommentOnly_blockOpen F (tl.take (seg0.rawEnd - (i + 2)))
                  (by have := take_length_le tl (seg0.rawEnd - (i + 2))
                      simp only [List.length_cons] at hF
                      omega)]
                exact hIH
            · split at h
              · -- statement boundary
                rename_i hnA hnB hc
                dsimp only at h
                injection h with h1 h2
                rw [← h1]
                simp [inertRest, Nat.sub_self, wsCommentOnly_nil]
              · split at h
                · -- single-quote opener records content
                  rename_i hnA hnB hnC hc
                  have hM := scanAux_head_isSome n rest (i + 1) ScannerState.singleQuote
                    (noteContent none i) (noteContent_isSome _ _) seg0 segs h
                  have hlow := scanAux_rawEnd_lower n rest (i + 1) ScannerState.singleQuote
                    (noteContent none i) seg0 (by rw [h]; exact List.mem_cons_self _ _)
                  have hne : seg0.firstContentOffset ≠ none := Option.isSome_iff_ne_none.mp hM
                  simp only [inertRest]
                  rw [take_span_cons c rest i seg0.rawEnd (by omega)]
                  rw [wsCommentOnly_content F c (rest.take (seg0.rawEnd - (i + 1)))
                    (by rw [hc]; decide)
                    (by rw [hc]; intro hx; exact absurd hx.1 (by decide))
                    (by rw [hc]; intro hx; exact absurd hx.1 (by decide)) (by omega)]
                  simp [hne]
                · split at h
                  · -- double-quote opener records content
                    rename_i hnA hnB hnC hnD hc
                    have hM := scanAux_head_isSome n rest (i + 1) ScannerState.doubleQuote
                      (noteContent none i) (noteContent_isSome _ _) seg0 segs h
                    have hlow := scanAux_rawEnd_lower n rest (i + 1) ScannerState.doubleQuote
                      (noteContent none i) seg0 (by rw [h]; exact List.mem_cons_self _ _)
                    have hne : seg0.firstContentOffset ≠ none := Option.isSome_iff_ne_none.mp hM
                    simp only [inertRest]
                    rw [take_span_cons c rest i seg0.rawEnd (by omega)]
                    rw [wsCommentOnly_content F c (rest.take (seg0.rawEnd - (i + 1)))
                      (by rw [hc]; decide)
                      (by rw [hc]; intro hx; exact absurd hx.1 (by decide))
                      (by rw [hc]; intro hx; exact absurd hx.1 (by decide)) (by omega)]
                    simp [hne]
                  · split at h
                    · split at h
                      · -- dollar-quote opener records content
                        rename_i delim heq
                        have hc : c = '$' := by assumption
                        have hM := scanAux_head_isSome n (rest.drop (delim.length - 1))
                          (i + 1 + (delim.length - 1)) (ScannerState.dollarQuote delim)
                          (noteContent none i) (noteContent_isSome _ _) seg0 segs h
                        have hlow := scanAux_rawEnd_lower n (rest.drop (delim.length - 1))
                          (i + 1 + (delim.length - 1)) (ScannerState.dollarQuote delim)
                          (noteContent none i) seg0 (by rw [h]; exact List.mem_cons_self _ _)
                        have hne : seg0.firstContentOffset ≠ none :=
                          Option.isSome_iff_ne_none.mp hM
                        simp only [inertRest]
                        rw [take_span_cons c rest i seg0.rawEnd (by omega)]
                        rw [wsCommentOnly_content F c (rest.take (seg0.rawEnd - (i + 1)))
                          (by rw [hc]; decide)
                          (by rw [hc]; intro hx; exact absurd hx.1 (by decide))
                          (by rw [hc]; intro hx; exact absurd hx.1 (by decide)) (by omega)]
                        simp [hne]
                      · -- bare dollar records content
                        rename_i heq
                        have hc : c = '$' := by assumption
                        have hM := scanAux_head_isSome n rest (i + 1) ScannerState.normal
                          (noteContent none i) (noteContent_isSome _ _) seg0 segs h
                        have hlow := scanAux_rawEnd_lower n rest (i + 1) ScannerState.normal
                          (noteContent none i) seg0 (by rw [h]; exact List.mem_cons_self _ _)
                        have hne : seg0.firstContentOffset ≠ none :=
                          Option.isSome_iff_ne_none.mp hM
                        simp only [inertRest]
                        rw [take_span_cons c rest i seg0.rawEnd (by omega)]
                        rw [wsCommentOnly_content F c (rest.take (seg0.rawEnd - (i + 1)))
                          (by rw [hc]; decide)
                          (by rw [hc]; intro hx; exact absurd hx.1 (by decide))
                          (by rw [hc]; intro hx; exact absurd hx.1 (by decide)) (by omega)]
                        simp [hne]
                    · split at h
                      · -- whitespace keeps scanning
                        rename_i hnA hnB hnC hnD hnE hnDollar hws
                        have hlow := scanAux_rawEnd_lower n rest (i + 1)
                          ScannerState.normal none seg0
                          (by rw [h]; exact List.mem_cons_self _ _)
                        have hIH := (ih rest (i + 1) ScannerState.normal none (by omega)
                          (by omega)).2 rfl trivial seg0 segs h
                        simp only [inertRest] at hIH ⊢
                        rw [take_span_cons c rest i seg0.rawEnd (by omega)]
                        rw [wsCommentOnly_ws F c (rest.take (seg0.rawEnd - (i + 1))) hws
                          (by have := take_length_le rest (seg0.rawEnd - (i + 1)); omega)]
                        exact hIH
                      · -- any other character records content
                        rename_i hnA hnB hnC hnD hnE hnDollar hnws
                        have hM := scanAux_head_isSome n rest (i + 1) ScannerState.normal
                          (noteContent none i) (noteContent_isSome _ _) seg0 segs h
                        have hlow := scanAux_rawEnd_lower n rest (i + 1) ScannerState.normal
                          (noteContent none i) seg0 (by rw [h]; exact List.mem_cons_self _ _)
                        have hne : seg0.firstContentOffset ≠ none :=
                          Option.isSome_iff_ne_none.mp hM
                        have hws : isWhitespaceChar c = false := by
                          simpa using hnws
                        have hlh := take_head?_cases rest (seg0.rawEnd - (i + 1))
                        simp only [inertRest]
                        rw [take_span_cons c rest i seg0.rawEnd (by omega)]
                        rw [wsCommentOnly_content F c (rest.take (seg0.rawEnd - (i + 1))) hws
                          (by intro hx
                              rcases hlh with hl0 | hl0
                              · rw [hl0] at hx; exact Option.noConfusion hx.2
                              · rw [hl0] at hx; exact hnA ⟨hx.1, hx.2⟩)
                          (by intro hx
                              rcases hlh with hl0 | hl0
                              · rw [hl0] at hx; exact Option.noConfusion hx.2
                              · rw [hl0] at hx; exact hnB ⟨hx.1, hx.2⟩)
                          (by omega)]
                        simp [hne]
        case lineComment =>
          dsimp only at h
          split at h
          · -- newline ends the comment
            rename_i hc
            have hlow := scanAux_rawEnd_lower n rest (i + 1) ScannerState.normal none seg0
              (by rw [h]; exact List.mem_cons_self _ _)
            have hIH := (ih rest (i + 1) ScannerState.normal none (by omega) (by omega)).2
              rfl trivial seg0 segs h
            simp only [inertRest] at hIH ⊢
            rw [take_span_cons c rest i seg0.rawEnd (by omega), hc, skipLineComment_newline]
            exact hIH
          · -- any other character stays in the comment
            rename_i hc
            have hlow := scanAux_rawEnd_lower n rest (i + 1) ScannerState.lineComment none seg0
              (by rw [h]; exact List.mem_cons_self _ _)
            have hIH := (ih rest (i + 1) ScannerState.lineComment none (by omega) (by omega)).2
              rfl trivial seg0 segs h
            simp only [inertRest] at hIH ⊢
            rw [take_span_cons c rest i seg0.rawEnd (by omega),
              skipLineComment_other c (rest.take (seg0.rawEnd - (i + 1))) hc]
            exact hIH
        case blockComment depth =>
          dsimp only at h
          split at h
          · -- nested opener deepens
            rename_i hA
            obtain ⟨hc, hr⟩ := hA
            cases rest with
            | nil => exact Option.noConfusion hr
            | cons hd tl =>
              simp only [List.head?_cons, Option.some.injEq] at hr
              simp only [List.tail_cons] at h
              have hlow := scanAux_rawEnd_lower n tl (i + 2)
                (ScannerState.blockComment (depth + 1)) none seg0
                (by rw [h]; exact List.mem_cons_self _ _)
              have hIH := (ih tl (i + 2) (ScannerState.blockComment (depth + 1)) none
                (by simp only [List.length_cons] at hf; omega)
                (by simp only [List.length_cons] at hF; omega)).2 rfl trivial seg0 segs h
              simp only [inertRest] at hIH ⊢
              rw [take_span_cons2 c hd tl i seg0.rawEnd (by omega), hc, hr]
              rw [skipBlockComment_open F depth (tl.take (seg0.rawEnd - (i + 2)))
                (by have := take_length_le tl (seg0.rawEnd - (i + 2))
                    simp only [List.length_cons] at hF
                    omega)]
              exact hIH
          · split at h
            · -- closing delimiter
              rename_i hnA hB
              obtain ⟨hc, hr⟩ := hB
              cases rest with
              | nil => exact Option.noConfusion hr
              | cons hd tl =>
                simp only [List.head?_cons, Option.some.injEq] at hr
                split at h
                · -- depth at most one: back to normal scanning
                  rename_i hd1
                  simp only [List.tail_cons] at h
                  have hlow := scanAux_rawEnd_lower n tl (i + 2) ScannerState.normal none seg0
                    (by rw [h]; exact List.mem_cons_self _ _)
                  have hIH := (ih tl (i + 2) ScannerState.normal none
                    (by simp only [List.length_cons] at hf; omega)
                    (by simp only [List.length_cons] at hF; omega)).2 rfl trivial seg0 segs h
                  simp only [inertRest] at hIH ⊢
                  rw [take_span_cons2 c hd tl i seg0.rawEnd (by omega), hc, hr]
                  rw [skipBlockComment_close F depth (tl.take (seg0.rawEnd - (i + 2))) hd1
                    (by omega)]
                  exact hIH
                · -- deeper nesting pops one level
                  rename_i hd1
                  simp only [List.tail_cons] at h
                  have hlow := scanAux_rawEnd_lower n tl (i + 2)
                    (ScannerState.blockComment (depth - 1)) none seg0
                    (by rw [h]; exact List.mem_cons_self _ _)
                  have hIH := (ih tl (i + 2) (ScannerState.blockComment (depth - 1)) none
                    (by simp only [List.length_cons] at hf; omega)
                    (by simp only [List.length_cons] at hF; omega)).2 rfl trivial seg0 segs h
                  simp only [inertRest] at hIH ⊢
                  rw [take_span_cons2 c hd tl i seg0.rawEnd (by omega), hc, hr]
                  rw [skipBlockComment_closeDeep F depth (tl.take (seg0.rawEnd - (i + 2))) hd1
                    (by have := take_length_le tl (seg0.rawEnd - (i + 2))
                        simp only [List.length_cons] at hF
                        omega)]
                  exact hIH
            · -- any other character stays in the comment
              rename_i hnA hnB
              have hlow := scanAux_rawEnd_lower n rest (i + 1)
                (ScannerState.blockComment depth) none seg0
                (by rw [h]; exact List.mem_cons_self _ _)
              have hIH := (ih rest (i + 1) (ScannerState.blockComment depth) none (by omega)
                (by omega)).2 rfl trivial seg0 segs h
              have hlh := take_head?_cases rest (seg0.rawEnd - (i + 1))
              simp only [inertRest] at hIH ⊢
              rw [take_span_cons c rest i seg0.rawEnd (by omega)]
              rw [skipBlockComment_other F depth c (rest.take (seg0.rawEnd - (i + 1)))
                (by intro hx
                    rcases hlh with hl0 | hl0
                    · rw [hl0] at hx; exact Option.noConfusion hx.2
                    · rw [hl0] at hx; exact hnA ⟨hx.1, hx.2⟩)
                (by intro hx
                    rcases hlh with hl0 | hl0
                    · rw [hl0] at hx; exact Option.noConfusion hx.2
                    · rw [hl0] at hx; exact hnB ⟨hx.1, hx.2⟩)
                (by have := take_length_le rest (seg0.rawEnd - (i + 1)); omega)]
              exact hIH


/-- Top-level drop specification: over the full scan of a text, a segment
carries no first content offset exactly when its characters are pure
whitespace and comments. -/
lemma scanSqlSegments_dropSpec (text : String) :
    segmentsDropSpec text.data.length text.data 0 (scanSqlSegments text) := by
  have h := scanAux_dropSpec text.data.length text.data.length text.data 0
    ScannerState.normal none (le_refl _) (le_refl _)
  unfold scanSqlSegments
  rcases hseg : (scanAux text.data.length text.data 0 ScannerState.normal none).segments with
    _ | ⟨seg0, segs⟩
  · exact trivial
  · simp only [segmentsDropSpec]
    constructor
    · have h2 := h.2 rfl trivial seg0 segs hseg
      simpa [inertRest] using h2
    · exact h.1 seg0 segs hseg


/-- C1: a statement boundary is recorded only at a `;` scanned in the
`Normal` lexical state — every separator offset points at a `;` that the
scan visited in `Normal` state — and the spec's example text scans to
exactly the 4 expected statements, none split on the quoted, commented or
dollar-quoted semicolons. -/
theorem c1_boundaries_only_normal :
    (∀ (text : String), ∀ b ∈ collectSeparatorOffsets text,
        text.data.get? b = some ';' ∧ (b, ScannerState.normal) ∈ scanVisits text) ∧
    (getSqlStatements c1Example).map SqlStatement.text =
      ["SELECT ';' AS x", "SELECT 1 /* ; */", "DO $$ ... ; $$", "SELECT 3"] := by
  constructor
  · intro text b hb
    rw [collectSeparatorOffsets, List.mem_filter] at hb
    obtain ⟨hmem, hlt⟩ := hb
    rcases List.mem_map.mp hmem with ⟨seg, hseg, rfl⟩
    simp only [decide_eq_true_eq] at hlt
    have := scanAux_boundary text.data.length text.data 0 ScannerState.normal none
      (le_refl _) seg hseg (by simpa using hlt)
    simpa [scanVisits] using this
  · decide

theorem c1_boundaries_only_normal_witness :
    ("a;b" : String).data.get? 1 = some ';' ∧
    (1, ScannerState.normal) ∈ scanVisits ("a;b") :=
  c1_boundaries_only_normal.1 ("a;b") 1 (by decide)

/-- C3 counterexample: with `"SELECT 1;SELECT 2;"` and the cursor exactly on
the boundary `;` at offset 8, resolution returns the preceding statement
`"SELECT 1"` with segment start 0 — not the following segment at
boundary + 1 as the claim states. -/
theorem c3_counterexample :
    8 ∈ collectSeparatorOffsets ("SELECT 1;SELECT 2;") ∧
    getSqlToRun ("SELECT 1;SELECT 2;") 8 = some ("SELECT 1") ∧
    getSqlToRun ("SELECT 1;SELECT 2;") 8 ≠ some ("SELECT 2") ∧
    findSegmentStart 8 (collectSeparatorOffsets ("SELECT 1;SELECT 2;")) = 0 := by
  exact ⟨by decide, by decide, by decide, by decide⟩

/-- C3 amended: a cursor exactly on a boundary `;` belongs to the preceding
segment (the boundary is that segment's exclusive end and the start does not
move past the cursor), a cursor at boundary + 1 starts the following
segment, and a resolution that trims to empty yields no statement rather
than falling back to a neighbouring segment. -/
theorem c3_cursor_boundary_resolution :
    (∀ (text : String), ∀ b ∈ collectSeparatorOffsets text,
        findSegmentEnd b (collectSeparatorOffsets text) text.data.length = b ∧
        findSegmentStart b (collectSeparatorOffsets text) ≤ b ∧
        findSegmentStart (b + 1) (collectSeparatorOffsets text) = b + 1) ∧
    getSqlToRun ("SELECT 1;SELECT 2;") 8 = some ("SELECT 1") ∧
    getSqlToRun ("SELECT 1;SELECT 2;") 9 = some ("SELECT 2") ∧
    getSqlToRun (";;") 1 = none ∧
    getSqlToRun ("SELECT 1;;") 9 = none := by
  refine ⟨?_, by decide, by decide, by decide, by decide⟩
  intro text b hb
  exact ⟨findSegmentEnd_boundary text b hb, findSegmentStart_le _ _,
    findSegmentStart_after b _ (collectSeparatorOffsets_sorted text) hb⟩

theorem c3_cursor_boundary_resolution_witness :
    findSegmentEnd 1 (collectSeparatorOffsets ("a;b")) ("a;b" : String).data.length = 1 ∧
    findSegmentStart 1 (collectSeparatorOffsets ("a;b")) ≤ 1 ∧
    findSegmentStart 2 (collectSeparatorOffsets ("a;b")) = 2 :=
  c3_cursor_boundary_resolution.1 ("a;b") 1 (by decide)

/-- C9: statement enumeration never emits an empty statement (every emitted
statement is non-empty and ends in a non-whitespace character); for every
source text, every scanned segment — the final implicit one included — has a
recorded content offset exactly when its characters are not pure
whitespace/comments, and yields a statement exactly when a content offset
was recorded, so whitespace/comment-only segments are dropped and contentful
ones are kept; the decisive concrete scans confirm both dropping and
keeping. -/
theorem c9_segments_dropped :
    (∀ (text : String), ∀ st ∈ getSqlStatements text,
        st.text.data ≠ [] ∧
        ∀ ch, st.text.data.getLast? = some ch → isWhitespaceChar ch = false) ∧
    (∀ (text : String),
        segmentsDropSpec text.data.length text.data 0 (scanSqlSegments text)) ∧
    (∀ (text : String), ∀ seg ∈ scanSqlSegments text,
        ((segmentStatement text seg).isSome = true ↔ seg.firstContentOffset.isSome = true)) ∧
    getSqlStatements ("-- only\n/* x */ ;") = [] ∧
    (getSqlStatements ("SELECT 1; SELECT 2")).map SqlStatement.text =
      ["SELECT 1", "SELECT 2"] ∧
    (getSqlStatements ("SELECT 1; /* c */ -- t\n")).map SqlStatement.text =
      ["SELECT 1"] := by
  exact ⟨fun text => getSqlStatements_content text,
    fun text => scanSqlSegments_dropSpec text,
    fun text => segmentStatement_isSome_iff text,
    by decide, by decide, by decide⟩

theorem c9_segments_dropped_witness :
    ((⟨"SELECT 1", 0, 8⟩ : SqlStatement).text.data ≠ [] ∧
      ∀ ch, (⟨"SELECT 1", 0, 8⟩ : SqlStatement).text.data.getLast? = some ch →
        isWhitespaceChar ch = false) ∧
    ((segmentStatement ("-- x\n1;") ⟨6, some 5⟩).isSome = true ↔
      (⟨6, some 5⟩ : SqlSegment).firstContentOffset.isSome = true) :=
  ⟨c9_segments_dropped.1 ("SELECT 1;") ⟨"SELECT 1", 0, 8⟩ (by decide),
   c9_segments_dropped.2.2.1 ("-- x\n1;") ⟨6, some 5⟩ (by decide)⟩

/-- The update SET-clause loop appends one clause and one bound value per
resolvable cell update, in source order, never deduplicating. -/
lemma updateSetFold_acc (columns : List String) :
    ∀ (updates : List TableCellChange) (acc : List String × List JsValue),
      (updates.foldl (fun acc u =>
        match truthyGet columns u.columnIndex with
        | none => acc
        | some name =>
          (acc.1 ++ [quoteIdentifier name ++ " = $" ++ toString (acc.2.length + 1)],
           acc.2 ++ [cellBind u])) acc).2 =
        acc.2 ++ (updates.filter (fun u => (truthyGet columns u.columnIndex).isSome)).map cellBind ∧
      (updates.foldl (fun acc u =>
        match truthyGet columns u.columnIndex with
        | none => acc
        | some name =>
          (acc.1 ++ [quoteIdentifier name ++ " = $" ++ toString (acc.2.length + 1)],
           acc.2 ++ [cellBind u])) acc).1.length =
        acc.1.length + (updates.filter (fun u => (truthyGet columns u.columnIndex).isSome)).length := by
  intro updates
  induction updates with
  | nil => intro acc; simp
  | cons u rest ih =>
    intro acc
    rw [List.foldl_cons, List.filter_cons]
    cases htg : truthyGet columns u.columnIndex with
    | none =>
      simp only [htg]
      simpa using ih acc
    | some name =>
      simp only [htg, Option.isSome_some]
      rw [if_pos (by simp)]
      rcases ih (acc.1 ++ [quoteIdentifier name ++ " = $" ++ toString (acc.2.length + 1)],
        acc.2 ++ [cellBind u]) with ⟨h1, h2⟩
      constructor
      · rw [h1]
        simp
      · rw [h2]
        simp
        omega

lemma updateSetFold_spec (columns : List String) (updates : List TableCellChange) :
    (updateSetFold columns updates).2 =
      (updates.filter (fun u => (truthyGet columns u.columnIndex).isSome)).map cellBind ∧
    (updateSetFold columns updates).1.length =
      (updates.filter (fun u => (truthyGet columns u.columnIndex).isSome)).length := by
  have := updateSetFold_acc columns updates ([], [])
  simpa [updateSetFold] using this

lemma insertFold_acc (columns : List String) :
    ∀ (cells : List TableCellChange) (acc : InsertAcc),
      (cells.foldl (fun acc u =>
        if u.columnIndex ∈ acc.seen then acc
        else
          match truthyGet columns u.columnIndex with
          | none => acc
          | some name =>
            { names := acc.names ++ [quoteIdentifier name]
              placeholders := acc.placeholders ++ ["$" ++ toString (acc.values.length + 1)]
              values := acc.values ++ [cellBind u]
              seen := acc.seen ++ [u.columnIndex] }) acc).values =
        acc.values ++
          (dedupFirstByIndex (cells.filter (fun u => (truthyGet columns u.columnIndex).isSome))
            acc.seen).map cellBind ∧
      (cells.foldl (fun acc u =>
        if u.columnIndex ∈ acc.seen then acc
        else
          match truthyGet columns u.columnIndex with
          | none => acc
          | some name =>
            { names := acc.names ++ [quoteIdentifier name]
              placeholders := acc.placeholders ++ ["$" ++ toString (acc.values.length + 1)]
              values := acc.values ++ [cellBind u]
              seen := acc.seen ++ [u.columnIndex] }) acc).names.length =
        acc.names.length +
          (dedupFirstByIndex (cells.filter (fun u => (truthyGet columns u.columnIndex).isSome))
            acc.seen).length := by
  intro cells
  induction cells with
  | nil => intro acc; simp [dedupFirstByIndex]
  | cons u rest ih =>
    intro acc
    rw [List.foldl_cons, List.filter_cons]
    by_cases hseen : u.columnIndex ∈ acc.seen
    · rw [if_pos hseen]
      cases htg : truthyGet columns u.columnIndex with
      | none =>
        simp only [htg, Option.isSome_none]
        simpa using ih acc
      | some name =>
        simp only [htg, Option.isSome_some]
        rw [if_pos (by simp)]
        rw [dedupFirstByIndex, if_pos hseen]
        exact ih acc
    · rw [if_neg hseen]
      cases htg : truthyGet columns u.columnIndex with
      | none =>
        simp only [htg, Option.isSome_none]
        simpa using ih acc
      | some name =>
        simp only [htg, Option.isSome_some]
        rw [if_pos (by simp)]
        rw [dedupFirstByIndex, if_neg hseen]
        rcases ih { names := acc.names ++ [quoteIdentifier name]
                    placeholders := acc.placeholders ++ ["$" ++ toString (acc.values.length + 1)]
                    values := acc.values ++ [cellBind u]
                    seen := acc.seen ++ [u.columnIndex] } with ⟨h1, h2⟩
        constructor
        · rw [h1]
          simp
        · rw [h2]
          simp
          omega

lemma insertFold_spec (columns : List String) (cells : List TableCellChange) :
    (insertFold columns cells).values =
      (dedupFirstByIndex (cells.filter (fun u => (truthyGet columns u.columnIndex).isSome))
        []).map cellBind ∧
    (insertFold columns cells).names.length =
      (dedupFirstByIndex (cells.filter (fun u => (truthyGet columns u.columnIndex).isSome))
        []).length := by
  have := insertFold_acc columns cells ⟨[], [], [], []⟩
  simpa [insertFold] using this

lemma buildUpdateStatement_none_iff (table : TableReference) (columns : List String)
    (rowLocator : String) (updates : List TableCellChange) :
    buildUpdateStatement table columns rowLocator updates = none ↔
      ∀ u ∈ updates, truthyGet columns u.columnIndex = none := by
  rw [buildUpdateStatement]
  rcases hl : updates.length with _ | n
  · rw [if_pos rfl]
    have : updates = [] := List.length_eq_zero.mp hl
    subst this
    simp
  · rw [if_neg (by omega)]
    have hspec := (updateSetFold_spec columns updates).2
    constructor
    · intro hnone u hu
      dsimp only at hnone
      split at hnone
      · rename_i hzero
        rw [hspec] at hzero
        have := List.filter_eq_nil.mp (List.length_eq_zero.mp hzero) u hu
        simpa using this
      · simp at hnone
    · intro hall
      dsimp only
      rw [if_pos]
      rw [hspec]
      rw [List.length_eq_zero, List.filter_eq_nil]
      intro u hu
      simp [hall u hu]

lemma dedupFirstByIndex_nil_iff :
    ∀ (cells : List TableCellChange), dedupFirstByIndex cells [] = [] ↔ cells = [] := by
  intro cells
  cases cells with
  | nil => simp [dedupFirstByIndex]
  | cons u rest =>
    rw [dedupFirstByIndex]
    rw [if_neg (by simp)]
    simp

lemma buildInsertStatement_none_iff (table : TableReference) (columns : List String)
    (cells : List TableCellChange) :
    buildInsertStatement table columns cells = none ↔
      ∀ u ∈ cells, truthyGet columns u.columnIndex = none := by
  rw [buildInsertStatement]
  rcases hl : cells.length with _ | n
  · rw [if_pos rfl]
    have : cells = [] := List.length_eq_zero.mp hl
    subst this
    simp
  · rw [if_neg (by omega)]
    have hspec := (insertFold_spec columns cells).2
    constructor
    · intro hnone u hu
      dsimp only at hnone
      split at hnone
      · rename_i hzero
        rw [hspec] at hzero
        have hdedup := List.length_eq_zero.mp hzero
        rw [dedupFirstByIndex_nil_iff] at hdedup
        have := List.filter_eq_nil.mp hdedup u hu
        simpa using this
      · simp at hnone
    · intro hall
      dsimp only
      rw [if_pos]
      rw [hspec, List.length_eq_zero, dedupFirstByIndex_nil_iff, List.filter_eq_nil]
      intro u hu
      simp [hall u hu]

lemma buildDeleteStatement_none_iff (table : TableReference) (rowLocator : String) :
    buildDeleteStatement table rowLocator = none ↔ rowLocator = "" := by
  rw [buildDeleteStatement]
  split
  · simpa
  · rename_i hne
    simpa using hne

lemma applyChanges_skip (table : TableReference) (columns : List String)
    (change : TableDataChange) (rest : List TableDataChange) (st : ExecState)
    (counts : SaveCounts) (hskip : statementFor table columns change = none) :
    applyChanges table columns (change :: rest) st counts =
      applyChanges table columns rest st counts := by
  rw [applyChanges, hskip]

/-- C5: update statements do not deduplicate repeated column indices — every
resolvable cell update yields its own SET clause and bound value in source
order (so the last occurrence is the last assignment) — while insert
statements keep only the first occurrence per column index; concretely, a
duplicated column produces two SET clauses with both values for an update
but a single column with the first value for an insert. -/
theorem c5_duplicate_column_asymmetry :
    (∀ (columns : List String) (updates : List TableCellChange),
        (updateSetFold columns updates).2 =
          (updates.filter (fun u => (truthyGet columns u.columnIndex).isSome)).map cellBind ∧
        (updateSetFold columns updates).1.length =
          (updates.filter (fun u => (truthyGet columns u.columnIndex).isSome)).length) ∧
    (∀ (columns : List String) (cells : List TableCellChange),
        (insertFold columns cells).values =
          (dedupFirstByIndex
            (cells.filter (fun u => (truthyGet columns u.columnIndex).isSome)) []).map cellBind ∧
        (insertFold columns cells).names.length =
          (dedupFirstByIndex
            (cells.filter (fun u => (truthyGet columns u.columnIndex).isSome)) []).length) ∧
    buildUpdateStatement ⟨"public", "users"⟩ ["c"] ("(0,1)")
        [⟨0, JsValue.jsStr "a", false⟩, ⟨0, JsValue.jsStr "b", false⟩] =
      some ⟨"UPDATE \"public\".\"users\" SET \"c\" = $1, \"c\" = $2 WHERE ctid = $3::tid;",
        [JsValue.jsStr "a", JsValue.jsStr "b", JsValue.jsStr "(0,1)"]⟩ ∧
    buildInsertStatement ⟨"public", "users"⟩ ["c"]
        [⟨0, JsValue.jsStr "a", false⟩, ⟨0, JsValue.jsStr "b", false⟩] =
      some ⟨"INSERT INTO \"public\".\"users\" (\"c\") VALUES ($1);", [JsValue.jsStr "a"]⟩ :=
  ⟨updateSetFold_spec, insertFold_spec, by decide, by decide⟩

/-- C6 counterexample: an update change with an empty rowLocator is NOT
silently skipped — `saveChanges` issues its UPDATE statement (binding the
empty locator) and counts the reported affected row, so it contributes to
the updated counter, contradicting the claim. -/
theorem c6_counterexample :
    saveChanges ⟨⟨"public", "users"⟩, ["c"],
        [TableDataChange.update ("") [⟨0, JsValue.jsStr "x", false⟩]]⟩
      [Except.ok {}, Except.ok { rowCount := some 1 }, Except.ok {}] =
    (Except.ok ⟨1, 0, 0⟩,
      ⟨[(("BEGIN"), []),
        (("UPDATE \"public\".\"users\" SET \"c\" = $1 WHERE ctid = $2::tid;"),
          [JsValue.jsStr "x", JsValue.jsStr ""]),
        (("COMMIT"), [])], 1, 1⟩) := by decide

/-- C6 amended: an update with zero resolvable column indices, an insert
with zero resolvable column indices, or a delete with an empty rowLocator
builds no statement, and a change that builds no statement is skipped by the
save loop without touching counters or aborting the batch; but an update
with an empty rowLocator and at least one resolvable column IS translated
into a statement rather than skipped. -/
theorem c6_untranslatable_changes_skipped :
    (∀ (table : TableReference) (columns : List String) (rowLocator : String)
        (updates : List TableCellChange),
        buildUpdateStatement table columns rowLocator updates = none ↔
          ∀ u ∈ updates, truthyGet columns u.columnIndex = none) ∧
    (∀ (table : TableReference) (columns : List String) (cells : List TableCellChange),
        buildInsertStatement table columns cells = none ↔
          ∀ u ∈ cells, truthyGet columns u.columnIndex = none) ∧
    (∀ (table : TableReference) (rowLocator : String),
        buildDeleteStatement table rowLocator = none ↔ rowLocator = "") ∧
    (∀ (table : TableReference) (columns : List String) (change : TableDataChange)
        (rest : List TableDataChange) (st : ExecState) (counts : SaveCounts),
        statementFor table columns change = none →
        applyChanges table columns (change :: rest) st counts =
          applyChanges table columns rest st counts) ∧
    (∀ (table : TableReference) (columns : List String) (updates : List TableCellChange),
        (∃ u ∈ updates, (truthyGet columns u.columnIndex).isSome) →
        buildUpdateStatement table columns ("") updates ≠ none) := by
  refine ⟨buildUpdateStatement_none_iff, buildInsertStatement_none_iff,
    buildDeleteStatement_none_iff, applyChanges_skip, ?_⟩
  rintro table columns updates ⟨u, hu, hsome⟩ hnone
  rw [buildUpdateStatement_none_iff] at hnone
  rw [hnone u hu] at hsome
  simp at hsome

theorem c6_untranslatable_changes_skipped_witness :
    applyChanges ⟨"s", "t"⟩ ["c"]
        [TableDataChange.delete (""), TableDataChange.insert []] ⟨[], []⟩ ⟨0, 0, 0⟩ =
      applyChanges ⟨"s", "t"⟩ ["c"] [TableDataChange.insert []] ⟨[], []⟩ ⟨0, 0, 0⟩ :=
  c6_untranslatable_changes_skipped.2.2.2.1 ⟨"s", "t"⟩ ["c"] (TableDataChange.delete (""))
    [TableDataChange.insert []] ⟨[], []⟩ ⟨0, 0, 0⟩ (by decide)

/-- One scripted query appends exactly its own record to the log. -/
lemma execQuery_log (sql : String) (params : List JsValue) (st : ExecState) :
    (execQuery sql params st).2.log = st.log ++ [(sql, params)] := by
  rw [execQuery]
  cases st.script <;> rfl

lemma execQuery_script_suffix (sql : String) (params : List JsValue) (st : ExecState) :
    (execQuery sql params st).2.script <:+ st.script := by
  rw [execQuery]
  cases h : st.script with
  | nil => simp
  | cons r rest => simp [List.suffix_cons]

lemma execQuery_error_mem (sql : String) (params : List JsValue) (st : ExecState)
    (e : QueryError) (h : (execQuery sql params st).1 = Except.error e) :
    Except.error e ∈ st.script := by
  rw [execQuery] at h
  cases hs : st.script with
  | nil => rw [hs] at h; simp at h
  | cons r rest =>
    rw [hs] at h
    simp at h
    simp [← h]

lemma applyChanges_script_suffix (table : TableReference) (columns : List String) :
    ∀ (changes : List TableDataChange) (st : ExecState) (counts : SaveCounts),
      (applyChanges table columns changes st counts).2.script <:+ st.script := by
  intro changes
  induction changes with
  | nil => intro st counts; simp [applyChanges]
  | cons change rest ih =>
    intro st counts
    rw [applyChanges]
    split
    · exact ih st counts
    · rename_i cmd hstmt
      split
      · rename_i e2 st2 hq
        have := execQuery_script_suffix cmd.sql cmd.values st
        rw [hq] at this
        exact this
      · rename_i res st2 hq
        have hsuf : st2.script <:+ st.script := by
          have := execQuery_script_suffix cmd.sql cmd.values st
          rw [hq] at this
          exact this
        exact (ih st2 _).trans hsuf

lemma applyChanges_error_mem (table : TableReference) (columns : List String) :
    ∀ (changes : List TableDataChange) (st : ExecState) (counts : SaveCounts)
      (e : QueryError) (st' : ExecState),
      applyChanges table columns changes st counts = (Except.error e, st') →
      Except.error e ∈ st.script := by
  intro changes
  induction changes with
  | nil => intro st counts e st' h; simp [applyChanges] at h
  | cons change rest ih =>
    intro st counts e st' h
    rw [applyChanges] at h
    split at h
    · exact ih st counts e st' h
    · rename_i cmd hstmt
      split at h
      · rename_i e2 st2 hq
        rw [Prod.mk.injEq] at h
        obtain ⟨he, -⟩ := h
        injection he with he2
        subst he2
        exact execQuery_error_mem cmd.sql cmd.values st e2 (by rw [hq])
      · rename_i res st2 hq
        have hmem := ih st2 _ e st' h
        have hsuf : st2.script <:+ st.script := by
          have := execQuery_script_suffix cmd.sql cmd.values st
          rw [hq] at this
          exact this
        exact hsuf.subset hmem

lemma saveChanges_error_mem (request : TableSaveRequest)
    (script : List (Except QueryError QueryResultLike)) (e : QueryError)
    (h : (saveChanges request script).1 = Except.error e) :
    Except.error e ∈ script := by
  rw [saveChanges] at h
  split at h
  · simp at h
  · dsimp only at h
    split at h
    · rename_i eB st1 hB
      split at h
      · rename_i r st2 hR
        simp at h
        subst h
        exact execQuery_error_mem ("BEGIN") [] ⟨script, []⟩ eB (by rw [hB])
      · rename_i e2 st2 hR
        simp at h
        subst h
        have hsuf1 : st1.script <:+ script := by
          have := execQuery_script_suffix ("BEGIN") [] ⟨script, []⟩
          rw [hB] at this
          exact this
        exact hsuf1.subset (execQuery_error_mem ("ROLLBACK") [] st1 e2 (by rw [hR]))
    · rename_i rB st1 hB
      have hsuf1 : st1.script <:+ script := by
        have := execQuery_script_suffix ("BEGIN") [] ⟨script, []⟩
        rw [hB] at this
        exact this
      split at h
      · rename_i eL st2 hLoop
        have hsuf2 : st2.script <:+ st1.script := by
          have := applyChanges_script_suffix request.table request.columns request.changes st1
            ⟨0, 0, 0⟩
          rw [hLoop] at this
          exact this
        split at h
        · rename_i r st3 hR
          simp at h
          subst h
          exact hsuf1.subset
            (applyChanges_error_mem request.table request.columns request.changes st1 _ eL st2
              hLoop)
        · rename_i e2 st3 hR
          simp at h
          subst h
          exact hsuf1.subset (hsuf2.subset (execQuery_error_mem ("ROLLBACK") [] st2 e2
            (by rw [hR])))
      · rename_i counts st2 hLoop
        have hsuf2 : st2.script <:+ st1.script := by
          have := applyChanges_script_suffix request.table request.columns request.changes st1
            ⟨0, 0, 0⟩
          rw [hLoop] at this
          exact this
        split at h
        · rename_i r st3 hC
          simp at h
        · rename_i eC st3 hC
          have hsuf3 : st3.script <:+ st2.script := by
            have := execQuery_script_suffix ("COMMIT") [] st2
            rw [hC] at this
            exact this
          split at h
          · rename_i r st4 hR
            simp at h
            subst h
            exact hsuf1.subset (hsuf2.subset (execQuery_error_mem ("COMMIT") [] st2 eC
              (by rw [hC])))
          · rename_i e2 st4 hR
            simp at h
            subst h
            exact hsuf1.subset (hsuf2.subset (hsuf3.subset
              (execQuery_error_mem ("ROLLBACK") [] st3 e2 (by rw [hR]))))

lemma saveChanges_cases (request : TableSaveRequest)
    (script : List (Except QueryError QueryResultLike))
    (hguard : ¬(request.changes.length = 0 ∨ request.columns.length = 0)) :
    ∃ out tr, saveChanges request script = (out, tr) ∧ tr.connects = 1 ∧ tr.releases = 1 ∧
      ((∃ counts, out = Except.ok counts ∧ tr.queries.getLast? = some (("COMMIT"), [])) ∨
       (∃ e, out = Except.error e ∧ tr.queries.getLast? = some (("ROLLBACK"), []))) := by
  rw [saveChanges, if_neg hguard]
  dsimp only
  split
  · rename_i eB st1 hB
    split
    · rename_i r st2 hR
      refine ⟨_, _, rfl, rfl, rfl, Or.inr ⟨eB, rfl, ?_⟩⟩
      have hlog := execQuery_log ("ROLLBACK") [] st1
      rw [hR] at hlog
      simp only [] at hlog
      simp [hlog]
    · rename_i e2 st2 hR
      refine ⟨_, _, rfl, rfl, rfl, Or.inr ⟨e2, rfl, ?_⟩⟩
      have hlog := execQuery_log ("ROLLBACK") [] st1
      rw [hR] at hlog
      simp only [] at hlog
      simp [hlog]
  · rename_i rB st1 hB
    split
    · rename_i eL st2 hLoop
      split
      · rename_i r st3 hR
        refine ⟨_, _, rfl, rfl, rfl, Or.inr ⟨eL, rfl, ?_⟩⟩
        have hlog := execQuery_log ("ROLLBACK") [] st2
        rw [hR] at hlog
        simp only [] at hlog
        simp [hlog]
      · rename_i e2 st3 hR
        refine ⟨_, _, rfl, rfl, rfl, Or.inr ⟨e2, rfl, ?_⟩⟩
        have hlog := execQuery_log ("ROLLBACK") [] st2
        rw [hR] at hlog
        simp only [] at hlog
        simp [hlog]
    · rename_i counts st2 hLoop
      split
      · rename_i r st3 hC
        refine ⟨_, _, rfl, rfl, rfl, Or.inl ⟨counts, rfl, ?_⟩⟩
        have hlog := execQuery_log ("COMMIT") [] st2
        rw [hC] at hlog
        simp only [] at hlog
        simp [hlog]
      · rename_i eC st3 hC
        split
        · rename_i r st4 hR
          refine ⟨_, _, rfl, rfl, rfl, Or.inr ⟨eC, rfl, ?_⟩⟩
          have hlog := execQuery_log ("ROLLBACK") [] st3
          rw [hR] at hlog
          simp only [] at hlog
          simp [hlog]
        · rename_i e2 st4 hR
          refine ⟨_, _, rfl, rfl, rfl, Or.inr ⟨e2, rfl, ?_⟩⟩
          have hlog := execQuery_log ("ROLLBACK") [] st3
          rw [hR] at hlog
          simp only [] at hlog
          simp [hlog]

/-- C2 counterexample: when a statement fails with one error and the
subsequent `ROLLBACK` itself fails with a different error, the rollback
failure replaces the original error — the original error is NOT propagated
unmodified, because the rethrow sits after the `ROLLBACK` await inside the
catch block. -/
theorem c2_counterexample :
    (saveChanges ⟨⟨"public", "users"⟩, ["id"],
          [TableDataChange.update ("(0,1)") [⟨0, JsValue.jsStr "x", false⟩]]⟩
        [Except.ok {}, Except.error ⟨"boom"⟩, Except.error ⟨"rollback failed"⟩]).1 =
      Except.error ⟨"rollback failed"⟩ ∧
    (saveChanges ⟨⟨"public", "users"⟩, ["id"],
          [TableDataChange.update ("(0,1)") [⟨0, JsValue.jsStr "x", false⟩]]⟩
        [Except.ok {}, Except.error ⟨"boom"⟩, Except.error ⟨"rollback failed"⟩]).1 ≠
      Except.error ⟨"boom"⟩ := by
  exact ⟨by decide, by decide⟩

/-- C2 amended: for every non-trivial save request the borrowed connection
is released exactly once on every exit path; a successful save ends with
`COMMIT` and a failed one ends with `ROLLBACK` and returns no counts; every
propagated error is one of the engine's own errors, unmodified; and when a
per-change statement fails, the original error is propagated exactly when
the `ROLLBACK` succeeds, while a failing `ROLLBACK` propagates the rollback
error instead. -/
theorem c2_transaction_rollback_and_release :
    ∀ (request : TableSaveRequest) (script : List (Except QueryError QueryResultLike)),
      request.changes.length ≠ 0 → request.columns.length ≠ 0 →
      ((saveChanges request script).2.connects = 1 ∧
        (saveChanges request script).2.releases = 1) ∧
      (∀ counts, (saveChanges request script).1 = Except.ok counts →
          (saveChanges request script).2.queries.getLast? = some (("COMMIT"), [])) ∧
      (∀ e, (saveChanges request script).1 = Except.error e →
          (saveChanges request script).2.queries.getLast? = some (("ROLLBACK"), []) ∧
          Except.error e ∈ script) ∧
      (∀ r1 st1 e st2,
          execQuery ("BEGIN") [] ⟨script, []⟩ = (Except.ok r1, st1) →
          applyChanges request.table request.columns request.changes st1 ⟨0, 0, 0⟩ =
            (Except.error e, st2) →
          (∀ r st3, execQuery ("ROLLBACK") [] st2 = (Except.ok r, st3) →
              (saveChanges request script).1 = Except.error e) ∧
          (∀ e2 st3, execQuery ("ROLLBACK") [] st2 = (Except.error e2, st3) →
              (saveChanges request script).1 = Except.error e2)) := by
  intro request script h1 h2
  have hguard : ¬(request.changes.length = 0 ∨ request.columns.length = 0) := by
    simp [h1, h2]
  obtain ⟨out, tr, heq, hc, hr, hdisj⟩ := saveChanges_cases request script hguard
  refine ⟨?_, ?_, ?_, ?_⟩
  · rw [heq]
    exact ⟨hc, hr⟩
  · intro counts hok
    rw [heq] at hok ⊢
    rcases hdisj with ⟨c2, hco, hlast⟩ | ⟨e2, herr, hlast⟩
    · exact hlast
    · rw [herr] at hok
      simp at hok
  · intro e herr1
    constructor
    · rw [heq] at herr1 ⊢
      rcases hdisj with ⟨c2, hco, hlast⟩ | ⟨e2, herr2, hlast⟩
      · rw [hco] at herr1
        simp at herr1
      · exact hlast
    · exact saveChanges_error_mem request script e herr1
  · intro r1 st1 e st2 hB hLoop
    constructor
    · intro r st3 hR
      rw [saveChanges, if_neg hguard]
      dsimp only
      split
      · rename_i eB st1' hB2
        rw [hB] at hB2
        simp at hB2
      · rename_i rB st1' hB2
        rw [hB] at hB2
        simp only [Prod.mk.injEq] at hB2
        obtain ⟨-, hst⟩ := hB2
        subst hst
        split
        · rename_i eL st2' hLoop2
          rw [hLoop] at hLoop2
          simp only [Prod.mk.injEq] at hLoop2
          obtain ⟨he, hst⟩ := hLoop2
          injection he with he
          subst he
          subst hst
          split
          · rfl
          · rename_i e2 st3' hR2
            rw [hR] at hR2
            simp at hR2
        · rename_i counts st2' hLoop2
          rw [hLoop] at hLoop2
          simp at hLoop2
    · intro e2 st3 hR
      rw [saveChanges, if_neg hguard]
      dsimp only
      split
      · rename_i eB st1' hB2
        rw [hB] at hB2
        simp at hB2
      · rename_i rB st1' hB2
        rw [hB] at hB2
        simp only [Prod.mk.injEq] at hB2
        obtain ⟨-, hst⟩ := hB2
        subst hst
        split
        · rename_i eL st2' hLoop2
          rw [hLoop] at hLoop2
          simp only [Prod.mk.injEq] at hLoop2
          obtain ⟨he, hst⟩ := hLoop2
          injection he with he
          subst he
          subst hst
          split
          · rename_i r st3' hR2
            rw [hR] at hR2
            simp at hR2
          · rename_i e3 st3' hR2
            rw [hR] at hR2
            simp only [Prod.mk.injEq] at hR2
            obtain ⟨he3, -⟩ := hR2
            injection he3 with he3
            subst he3
            rfl
        · rename_i counts st2' hLoop2
          rw [hLoop] at hLoop2
          simp at hLoop2

theorem c2_transaction_rollback_and_release_witness :
    (saveChanges ⟨⟨"s", "t"⟩, ["c"], [TableDataChange.delete ("(0,1)")]⟩
        [Except.ok {}, Except.ok {}, Except.ok {}]).2.connects = 1 ∧
    (saveChanges ⟨⟨"s", "t"⟩, ["c"], [TableDataChange.delete ("(0,1)")]⟩
        [Except.ok {}, Except.ok {}, Except.ok {}]).2.releases = 1 :=
  (c2_transaction_rollback_and_release ⟨⟨"s", "t"⟩, ["c"], [TableDataChange.delete ("(0,1)")]⟩
    [Except.ok {}, Except.ok {}, Except.ok {}] (by decide) (by decide)).1

/-- The normalized page size is never negative. -/
lemma normalizePageSize_nonneg (j : JsNum) : 0 ≤ normalizePageSize j DEFAULT_PAGE_SIZE := by
  cases j <;> simp [normalizePageSize, DEFAULT_PAGE_SIZE]
  rename_i q
  split
  · omega
  · rename_i hq
    have : (0 : ℚ) ≤ q := by push_cast at hq ⊢; linarith
    exact Rat.le_floor.mpr (by exact_mod_cast this)

/-- C4: a page load issues its single table query with `LIMIT N+1` and
`OFFSET pageIndex*N` for the normalized page size `N`; the returned rows are
trimmed to at most `N`; `hasNextPage` holds exactly when the raw query
returned more than `N` rows; and the only queries ever issued are the table
query and (when columns exist) the two metadata queries — never a separate
count query. -/
theorem c4_limit_offset_hasNextPage :
    ∀ (request : TablePageRequest)
      (mainResp typesResp enumsResp : Except QueryError QueryResultLike),
      (loadPage request mainResp typesResp enumsResp).2.head? =
        some (buildOpenTableSql request.table.schemaName request.table.tableName
          (normalizePageSize request.pageSize DEFAULT_PAGE_SIZE + 1)
          ((request.pageIndex : Int) * normalizePageSize request.pageSize DEFAULT_PAGE_SIZE)) ∧
      (∀ res page, mainResp = Except.ok res →
          (loadPage request mainResp typesResp enumsResp).1 = Except.ok page →
          page.rows.length =
            min res.rows.length (normalizePageSize request.pageSize DEFAULT_PAGE_SIZE).toNat ∧
          (page.hasNextPage = true ↔
            normalizePageSize request.pageSize DEFAULT_PAGE_SIZE < (res.rows.length : Int))) ∧
      ((loadPage request mainResp typesResp enumsResp).2 =
          [buildOpenTableSql request.table.schemaName request.table.tableName
            (normalizePageSize request.pageSize DEFAULT_PAGE_SIZE + 1)
            ((request.pageIndex : Int) * normalizePageSize request.pageSize DEFAULT_PAGE_SIZE)] ∨
        (loadPage request mainResp typesResp enumsResp).2 =
          [buildOpenTableSql request.table.schemaName request.table.tableName
            (normalizePageSize request.pageSize DEFAULT_PAGE_SIZE + 1)
            ((request.pageIndex : Int) * normalizePageSize request.pageSize DEFAULT_PAGE_SIZE),
           columnTypesSql, columnEnumValuesSql]) := by
  intro request mainResp typesResp enumsResp
  refine ⟨?_, ?_, ?_⟩
  · cases mainResp with
    | error e => simp [loadPage]
    | ok res =>
      simp only [loadPage]
      split <;> rfl
  · intro res page hres hpage
    cases mainResp with
    | error e => simp at hres
    | ok res0 =>
      injection hres with hres
      subst hres
      simp only [loadPage] at hpage
      rw [Except.ok.injEq] at hpage
      rw [← hpage]
      have h0 := normalizePageSize_nonneg request.pageSize
      constructor
      · dsimp only
        rw [List.length_map]
        split
        · rename_i hnext
          simp only [decide_eq_true_eq] at hnext
          rw [List.length_take]
          omega
        · rename_i hnext
          simp only [decide_eq_true_eq] at hnext
          omega
      · dsimp only
        simp only [decide_eq_true_eq]
  · cases mainResp with
    | error e => simp [loadPage]
    | ok res =>
      simp only [loadPage]
      split
      · exact Or.inl rfl
      · exact Or.inr rfl

theorem c4_limit_offset_hasNextPage_witness :
    c4Page.rows.length =
      min c4MainData.rows.length (normalizePageSize c4Request.pageSize DEFAULT_PAGE_SIZE).toNat ∧
    (c4Page.hasNextPage = true ↔
      normalizePageSize c4Request.pageSize DEFAULT_PAGE_SIZE < (c4MainData.rows.length : Int)) :=
  (c4_limit_offset_hasNextPage c4Request (Except.ok c4MainData) (Except.error ⟨"m1"⟩)
    (Except.error ⟨"m2"⟩)).2.1 c4MainData c4Page rfl (by decide)

/-- Strings are equal when their character data are equal. -/
lemma string_data_ext (s t : String) (h : s.data = t.data) : s = t := by
  cases s
  cases t
  exact congrArg String.mk h

lemma loadColumnTypes_error (columns : List String) (e : QueryError) :
    loadColumnTypes columns (Except.error e) = columns.map (fun _ => "") := by
  rw [loadColumnTypes]
  split
  · rename_i h
    rw [List.length_eq_zero.mp h]
    rfl
  · rfl

lemma loadColumnEnumValues_error (columns : List String) (e : QueryError) :
    loadColumnEnumValues columns (Except.error e) = columns.map (fun _ => []) := by
  rw [loadColumnEnumValues]
  split
  · rename_i h
    rw [List.length_eq_zero.mp h]
    rfl
  · rfl

/-- C8: metadata is best-effort — a failed column-type or enum-label query
degrades every column to `""` / `[]`, a column with no metadata row degrades
to `""` / `[]`, and a page load whose two metadata queries both fail still
succeeds, its columns carrying the degraded metadata. -/
theorem c8_metadata_best_effort :
    (∀ (columns : List String) (e : QueryError),
        loadColumnTypes columns (Except.error e) = columns.map (fun _ => "")) ∧
    (∀ (columns : List String) (e : QueryError),
        loadColumnEnumValues columns (Except.error e) = columns.map (fun _ => [])) ∧
    (∀ (columns : List String) (res : QueryResultLike) (i : Nat) (c : String),
        columns.get? i = some c → (∀ p ∈ typePairsOf res, p.1 ≠ c) →
        (loadColumnTypes columns (Except.ok res)).get? i = some "") ∧
    (∀ (columns : List String) (res : QueryResultLike) (i : Nat) (c : String),
        columns.get? i = some c → (∀ p ∈ enumPairsOf res, p.1 ≠ c) →
        (loadColumnEnumValues columns (Except.ok res)).get? i = some []) ∧
    (∀ (request : TablePageRequest) (res : QueryResultLike) (e1 e2 : QueryError),
        ∃ page, (loadPage request (Except.ok res) (Except.error e1) (Except.error e2)).1 =
            Except.ok page ∧
          ∀ cd ∈ page.columns, cd.dataType = some "" ∧ cd.enumValues = some []) := by
  refine ⟨loadColumnTypes_error, loadColumnEnumValues_error, ?_, ?_, ?_⟩
  · intro columns res i c hi hnone
    rw [loadColumnTypes]
    split
    · rename_i h
      rw [List.length_eq_zero.mp h] at hi
      simp at hi
    · have hfind : ((typePairsOf res).reverse.find? (fun p => p.1 = c)) = none := by
        rw [List.find?_eq_none]
        intro p hp
        simp [hnone p (List.mem_reverse.mp hp)]
      rw [List.get?_map, hi]
      simp [hfind]
  · intro columns res i c hi hnone
    rw [loadColumnEnumValues]
    split
    · rename_i h
      rw [List.length_eq_zero.mp h] at hi
      simp at hi
    · rw [List.get?_map, hi]
      simp only [Option.map_some']
      have hfilter : ((enumPairsOf res).filter (fun p => p.1 = c)) = [] := by
        rw [List.filter_eq_nil]
        intro p hp
        simp [hnone p hp]
      rw [hfilter]
      rfl
  · intro request res e1 e2
    refine ⟨_, rfl, ?_⟩
    intro cd hcd
    dsimp only at hcd
    rcases List.mem_map.mp hcd with ⟨p, hp, rfl⟩
    have hidx := List.mem_enum_iff_getElem?.mp hp
    have hlt : p.1 < (res.fields.filter (fun f => f ≠ rowTokenAlias)).length :=
      (List.getElem?_eq_some.mp hidx).1
    dsimp only
    rw [loadColumnTypes_error, loadColumnEnumValues_error]
    constructor
    · rw [List.get?_map]
      rw [List.get?_eq_get hlt]
      rfl
    · rw [List.get?_map]
      rw [List.get?_eq_get hlt]
      rfl

theorem c8_metadata_best_effort_witness :
    (loadColumnTypes ["a"] (Except.ok {})).get? 0 = some "" :=
  c8_metadata_best_effort.2.2.1 ["a"] {} 0 ("a") (by decide) (by decide)

/-- C10: a non-finite or non-positive pageSize silently falls back to the
default 100, a fractional pageSize is floored, the load proceeds and the
returned page reports the normalized pageSize, and the single table query's
limit and offset are computed from the normalized value. -/
theorem c10_page_size_normalized :
    normalizePageSize JsNum.nan DEFAULT_PAGE_SIZE = 100 ∧
    normalizePageSize JsNum.posInf DEFAULT_PAGE_SIZE = 100 ∧
    normalizePageSize JsNum.negInf DEFAULT_PAGE_SIZE = 100 ∧
    (∀ q : ℚ, q ≤ 0 → normalizePageSize (JsNum.finite q) DEFAULT_PAGE_SIZE = 100) ∧
    (∀ q : ℚ, 0 < q → normalizePageSize (JsNum.finite q) DEFAULT_PAGE_SIZE = q.floor) ∧
    normalizePageSize (JsNum.finite ((2009 : ℚ) / 10)) DEFAULT_PAGE_SIZE = 200 ∧
    (∀ (request : TablePageRequest) (res : QueryResultLike)
        (typesResp enumsResp : Except QueryError QueryResultLike),
        ∃ page, (loadPage request (Except.ok res) typesResp enumsResp).1 = Except.ok page ∧
          page.pageSize = normalizePageSize request.pageSize DEFAULT_PAGE_SIZE) ∧
    (∀ (request : TablePageRequest)
        (mainResp typesResp enumsResp : Except QueryError QueryResultLike),
        (loadPage request mainResp typesResp enumsResp).2.head? =
          some (buildOpenTableSql request.table.schemaName request.table.tableName
            (normalizePageSize request.pageSize DEFAULT_PAGE_SIZE + 1)
            ((request.pageIndex : Int) * normalizePageSize request.pageSize DEFAULT_PAGE_SIZE))) := by
  refine ⟨rfl, rfl, rfl, ?_, ?_, ?_, ?_, ?_⟩
  · intro q hq
    simp [normalizePageSize, if_pos hq, DEFAULT_PAGE_SIZE]
  · intro q hq
    simp [normalizePageSize, if_neg (not_le.mpr hq)]
  · simp only [normalizePageSize]
    rw [if_neg (by norm_num)]
    rw [Rat.floor_def']
    norm_num
  · intro request res typesResp enumsResp
    exact ⟨_, rfl, rfl⟩
  · intro request mainResp typesResp enumsResp
    cases mainResp with
    | error e => simp [loadPage]
    | ok res =>
      simp only [loadPage]
      split <;> rfl

theorem c10_page_size_normalized_witness :
    normalizePageSize (JsNum.finite 0) DEFAULT_PAGE_SIZE = 100 :=
  c10_page_size_normalized.2.2.2.1 0 (by decide)

/-- C7 (modelled from the spec; the sortBy-capable builder is absent from
the source snapshot): with a sortBy, the issued table query is ordered first
by the quoted sort column with its direction and then by `ctid` as the
stable tiebreak, with `LIMIT N+1 OFFSET pageIndex*N` over the normalized
page size; without a sortBy it coincides with the source's locator-only
query; the concrete rendering matches the repository test expectation. -/
theorem c7_sorted_query_shape :
    (∀ (schemaName tableName : String) (limit offset : Int),
        buildOpenTableSqlSorted schemaName tableName limit offset none =
          buildOpenTableSql schemaName tableName limit offset) ∧
    (∀ (request : TablePageSortRequest), request.sortBy = none →
        issuedTableQuerySorted request =
          buildOpenTableSql request.table.schemaName request.table.tableName
            (normalizePageSize request.pageSize DEFAULT_PAGE_SIZE + 1)
            ((request.pageIndex : Int) * normalizePageSize request.pageSize DEFAULT_PAGE_SIZE)) ∧
    (∀ (request : TablePageSortRequest) (s : TableSort), request.sortBy = some s →
        issuedTableQuerySorted request =
          "SELECT ctid::text AS " ++ quoteIdentifier rowTokenAlias ++ ", * FROM " ++
            quoteIdentifier request.table.schemaName ++ "." ++
            quoteIdentifier request.table.tableName ++ " ORDER BY " ++
            quoteIdentifier s.columnName ++ " " ++ sortDirectionSql s.direction ++ ", ctid" ++
            " LIMIT " ++ toString (normalizePageSize request.pageSize DEFAULT_PAGE_SIZE + 1) ++
            " OFFSET " ++
            toString ((request.pageIndex : Int) *
              normalizePageSize request.pageSize DEFAULT_PAGE_SIZE) ++ ";") ∧
    buildOpenTableSqlSorted ("public") ("users") 101 0
        (some ⟨"display\"name", TableSortDirection.desc⟩) =
      "SELECT ctid::text AS \"__postgres_explorer_row_token__\", * FROM \"public\".\"users\" ORDER BY \"display\"\"name\" DESC, ctid LIMIT 101 OFFSET 0;" := by
  refine ⟨?_, ?_, ?_, by decide⟩
  · intro schemaName tableName limit offset
    apply string_data_ext
    simp [buildOpenTableSqlSorted, buildOpenTableSql, String.data_append]
  · intro request hnone
    rw [issuedTableQuerySorted, hnone]
    apply string_data_ext
    simp [buildOpenTableSqlSorted, buildOpenTableSql, String.data_append]
  · intro request s hsome
    rw [issuedTableQuerySorted, hsome]
    apply string_data_ext
    simp [buildOpenTableSqlSorted, String.data_append]

theorem c7_sorted_query_shape_witness :
    issuedTableQuerySorted ⟨⟨"public", "users"⟩, JsNum.finite 100, 0, none⟩ =
      buildOpenTableSql ("public") ("users")
        (normalizePageSize (JsNum.finite 100) DEFAULT_PAGE_SIZE + 1)
        (((0 : Nat) : Int) * normalizePageSize (JsNum.finite 100) DEFAULT_PAGE_SIZE) :=
  c7_sorted_query_shape.2.1 ⟨⟨"public", "users"⟩, JsNum.finite 100, 0, none⟩ rfl
